import Mathlib

/-!
Verification development for the telegroup report pipeline.

This file embeds, as executable Lean definitions, the algorithmic core of the
repository:

* `_extract_json_from_content` from `src/ai_client.py` (resilient JSON
  extraction: direct parse, fenced-code-block search, string-aware
  brace/bracket depth walks, final error with preview);
* the batch planner, per-batch result collection, category merger and
  category renderer from `src/report_generator.py`;
* the row-to-message conversion with its silent drop of orphaned replies;
* the thread grouping and minimum-thread-size filtering of
  `build_ai_summary_section` (both the configurable path in
  `report_generator.py` and the legacy hard-coded path in `main.py`).

JSON values are modelled by `JVal`.  The serializer `serialize` follows
`json.dumps` (separators `", "` and `": "`, escaping `"` and `\`), and the
parser `parseVal`/`jsonLoads` follows `json.loads` on the sublanguage the
pipeline exercises: integer numbers, strings without `\uXXXX` escapes and
without unescaped control characters; `wfVal` delimits that sublanguage.
Python-specific behaviours (truthiness of empty strings and of `0`,
`str.strip`, insertion-ordered dicts, `dict.fromkeys` deduplication, the
regex `` ```(?:json)?\s*\n?(.*?)\n?``` `` with its greedy/lazy backtracking)
are modelled explicitly.
-/

set_option maxRecDepth 4000

/-- The `{` character (written via its code point). -/
def lbrace : Char := Char.ofNat 123

/-- The `}` character (written via its code point). -/
def rbrace : Char := Char.ofNat 125

/-- The backtick character (written via its code point). -/
def btick : Char := Char.ofNat 96

/-- The double-quote character. -/
def dquote : Char := '"'

/-- The backslash character. -/
def bslash : Char := '\\'

/-- JSON values, as produced by `json.loads` in the model. -/
inductive JVal : Type where
  | jnull : JVal
  | jbool : Bool → JVal
  | jnum : Int → JVal
  | jstr : List Char → JVal
  | jarr : List JVal → JVal
  | jobj : List (List Char × JVal) → JVal

instance : Inhabited JVal := ⟨JVal.jnull⟩

/-- Decimal digit character for `n < 10`. -/
def digitChar (n : Nat) : Char := Char.ofNat (48 + n)

/-- Fueled helper for decimal digits (structural recursion so that closed
terms reduce in the kernel). -/
def natDigitsAux : Nat → Nat → List Char
  | 0, _ => []
  | f + 1, n =>
    if n < 10 then [digitChar n]
    else natDigitsAux f (n / 10) ++ [digitChar (n % 10)]

/-- Decimal digits of a natural number, most significant first. -/
def natDigits (n : Nat) : List Char := natDigitsAux (n + 1) n

lemma natDigitsAux_congr : ∀ f g n, n < f → n < g →
    natDigitsAux f n = natDigitsAux g n := by
  intro f
  induction f with
  | zero => omega
  | succ f ih =>
    intro g n hf hg
    cases g with
    | zero => omega
    | succ g =>
      simp only [natDigitsAux]
      by_cases h : n < 10
      · simp [h]
      · rw [if_neg h, if_neg h]
        rw [ih g (n / 10) (by omega) (by omega)]

/-- The defining recursion of `natDigits`. -/
lemma natDigits_unfold (n : Nat) : natDigits n =
    if n < 10 then [digitChar n]
    else natDigits (n / 10) ++ [digitChar (n % 10)] := by
  show natDigitsAux (n + 1) n = _
  by_cases h : n < 10
  · simp [natDigitsAux, h]
  · simp only [natDigitsAux, if_neg h]
    rw [natDigitsAux_congr n (n / 10 + 1) (n / 10) (by omega) (by omega)]
    rfl

/-- Decimal rendering of an integer, as `json.dumps` prints it. -/
def intChars (i : Int) : List Char :=
  if i < 0 then '-' :: natDigits (-i).toNat else natDigits i.toNat

/-- `json.dumps` escaping of a single character inside a string literal
(the wellformed sublanguage only needs `"` and `\`). -/
def escChar (c : Char) : List Char :=
  if c = dquote then [bslash, dquote]
  else if c = bslash then [bslash, bslash]
  else [c]

/-- `json.dumps` escaping of a whole string body. -/
def escStr (s : List Char) : List Char := (s.map escChar).flatten

mutual

/-- Serialization of a JSON value exactly as `json.dumps` renders it
(default separators `", "` and `": "`). -/
def serialize : JVal → List Char
  | .jnull => "null".data
  | .jbool true => "true".data
  | .jbool false => "false".data
  | .jnum i => intChars i
  | .jstr s => dquote :: escStr s ++ [dquote]
  | .jarr xs => '[' :: serArrBody xs ++ [']']
  | .jobj kvs => lbrace :: serObjBody kvs ++ [rbrace]

/-- Body of a serialized array (between the brackets). -/
def serArrBody : List JVal → List Char
  | [] => []
  | [x] => serialize x
  | x :: xs => serialize x ++ ", ".data ++ serArrBody xs

/-- Body of a serialized object (between the braces). -/
def serObjBody : List (List Char × JVal) → List Char
  | [] => []
  | [kv] => serPair kv
  | kv :: kvs => serPair kv ++ ", ".data ++ serObjBody kvs

/-- One serialized `"key": value` pair. -/
def serPair : List Char × JVal → List Char
  | (k, v) => dquote :: escStr k ++ [dquote] ++ ": ".data ++ serialize v

end

/-- A string of the modelled JSON sublanguage: no control characters
(those would be `\uXXXX`/`\n`-escaped by `json.dumps`). -/
def wfStr (s : List Char) : Bool := s.all (fun c => 32 ≤ c.toNat)

mutual

/-- Wellformedness of a value in the modelled JSON sublanguage. -/
def wfVal : JVal → Bool
  | .jnull => true
  | .jbool _ => true
  | .jnum _ => true
  | .jstr s => wfStr s
  | .jarr xs => wfList xs
  | .jobj kvs => wfPairs kvs

/-- Wellformedness of a list of values. -/
def wfList : List JVal → Bool
  | [] => true
  | x :: xs => wfVal x && wfList xs

/-- Wellformedness of a list of key-value pairs. -/
def wfPairs : List (List Char × JVal) → Bool
  | [] => true
  | (k, v) :: kvs => wfStr k && wfVal v && wfPairs kvs

end

mutual

/-- Parser fuel needed for a value (bounds the mutual recursion depth). -/
def fuelVal : JVal → Nat
  | .jnull => 1
  | .jbool _ => 1
  | .jnum _ => 1
  | .jstr _ => 1
  | .jarr xs => fuelList xs + 1
  | .jobj kvs => fuelPairs kvs + 1

/-- Parser fuel needed for array elements. -/
def fuelList : List JVal → Nat
  | [] => 0
  | x :: xs => fuelVal x + fuelList xs + 1

/-- Parser fuel needed for object members. -/
def fuelPairs : List (List Char × JVal) → Nat
  | [] => 0
  | (_, v) :: kvs => fuelVal v + fuelPairs kvs + 1

end

/-- JSON whitespace accepted by `json.loads` between tokens. -/
def isJsonWs (c : Char) : Bool := c = ' ' || c = '\t' || c = '\n' || c = '\r'

/-- Skip JSON whitespace. -/
def skipWs (cs : List Char) : List Char := cs.dropWhile isJsonWs

/-- Unescaping of a character following a backslash in a JSON string
(`\uXXXX` is outside the modelled sublanguage). -/
def escUnchar (c : Char) : Option Char :=
  if c = dquote then some dquote
  else if c = bslash then some bslash
  else if c = '/' then some '/'
  else if c = 'n' then some '\n'
  else if c = 't' then some '\t'
  else if c = 'r' then some '\r'
  else if c = 'b' then some (Char.ofNat 8)
  else if c = 'f' then some (Char.ofNat 12)
  else none

/-- Parse the body of a JSON string literal (after the opening quote),
returning the decoded string and the remaining input. -/
def parseStrBody : List Char → Option (List Char × List Char)
  | [] => none
  | c :: rest =>
    if c = dquote then some ([], rest)
    else if c = bslash then
      match rest with
      | [] => none
      | e :: rest2 =>
        match escUnchar e with
        | some ec => (parseStrBody rest2).map (fun p => (ec :: p.1, p.2))
        | none => none
    else if c.toNat < 32 then none
    else (parseStrBody rest).map (fun p => (c :: p.1, p.2))

/-- Numeric value of a digit string. -/
def digitsVal (ds : List Char) : Nat :=
  ds.foldl (fun a c => a * 10 + (c.toNat - 48)) 0

/-- Parse a JSON natural-number literal (leading zeros rejected as in
`json.loads`). -/
def parseNat : List Char → Option (Nat × List Char)
  | [] => none
  | c :: rest =>
    if c = '0' then
      match rest with
      | d :: _ => if d.isDigit then none else some (0, rest)
      | [] => some (0, [])
    else if c.isDigit then
      some (digitsVal ((c :: rest).takeWhile Char.isDigit),
            (c :: rest).dropWhile Char.isDigit)
    else none

mutual

/-- Fueled recursive-descent JSON value parser, following `json.loads` on
the modelled sublanguage; returns the value and the unconsumed input. -/
def parseVal : Nat → List Char → Option (JVal × List Char)
  | 0, _ => none
  | _ + 1, [] => none
  | n + 1, c :: rest =>
    if c = 'n' then
      match rest with
      | 'u' :: 'l' :: 'l' :: r => some (.jnull, r)
      | _ => none
    else if c = 't' then
      match rest with
      | 'r' :: 'u' :: 'e' :: r => some (.jbool true, r)
      | _ => none
    else if c = 'f' then
      match rest with
      | 'a' :: 'l' :: 's' :: 'e' :: r => some (.jbool false, r)
      | _ => none
    else if c = dquote then (parseStrBody rest).map (fun p => (.jstr p.1, p.2))
    else if c = '-' then (parseNat rest).map (fun p => (.jnum (-(p.1 : Int)), p.2))
    else if c.isDigit then
      (parseNat (c :: rest)).map (fun p => (.jnum (p.1 : Int), p.2))
    else if c = lbrace then
      let r := skipWs rest
      if r.head? = some rbrace then some (.jobj [], r.tail)
      else (parseMembers n r).map (fun p => (.jobj p.1, p.2))
    else if c = '[' then
      let r := skipWs rest
      if r.head? = some ']' then some (.jarr [], r.tail)
      else (parseElems n r).map (fun p => (.jarr p.1, p.2))
    else none

/-- Parse one or more `"key": value` members followed by `}`. -/
def parseMembers : Nat → List Char → Option (List (List Char × JVal) × List Char)
  | 0, _ => none
  | _ + 1, [] => none
  | n + 1, c :: rest =>
    if c = dquote then
      (parseStrBody rest).bind (fun kp =>
        let r2 := skipWs kp.2
        if r2.head? = some ':' then
          (parseVal n (skipWs r2.tail)).bind (fun vp =>
            let r4 := skipWs vp.2
            if r4.head? = some ',' then
              (parseMembers n (skipWs r4.tail)).map
                (fun p => ((kp.1, vp.1) :: p.1, p.2))
            else if r4.head? = some rbrace then some ([(kp.1, vp.1)], r4.tail)
            else none)
        else none)
    else none

/-- Parse one or more array elements followed by `]`. -/
def parseElems : Nat → List Char → Option (List JVal × List Char)
  | 0, _ => none
  | n + 1, cs =>
    (parseVal n cs).bind (fun vp =>
      let r := skipWs vp.2
      if r.head? = some ',' then
        (parseElems n (skipWs r.tail)).map (fun p => (vp.1 :: p.1, p.2))
      else if r.head? = some ']' then some ([vp.1], r.tail)
      else none)

end

/-- The model of `json.loads`: whole-input parse, `none` on any failure
(a raised `JSONDecodeError` in Python). -/
def jsonLoads (cs : List Char) : Option JVal :=
  match parseVal (cs.length + 1) (skipWs cs) with
  | some (v, rest) => if skipWs rest = [] then some v else none
  | none => none

/-- Whitespace stripped by Python `str.strip` / matched by the regex `\s`
class (ASCII range). -/
def isPyWs (c : Char) : Bool :=
  c = ' ' || c = '\t' || c = '\n' || c = '\r' || c = Char.ofNat 11 || c = Char.ofNat 12

/-- Python `str.strip()`. -/
def pyStrip (cs : List Char) : List Char :=
  ((cs.dropWhile isPyWs).reverse.dropWhile isPyWs).reverse

/-- The literal triple-backtick fence. -/
def fenceChars : List Char := [btick, btick, btick]

/-- Does the input start with the regex tail `` \n?``` ``
(greedy optional newline, then the closing fence)? -/
def tryClose (cs : List Char) : Bool :=
  fenceChars.isPrefixOf cs ||
    (match cs with
     | c :: r => c = '\n' && fenceChars.isPrefixOf r
     | [] => false)

/-- The lazy group `(.*?)`: shortest prefix whose remainder starts with
the closing `` \n?``` ``. -/
def closeSplit : List Char → Option (List Char)
  | [] => if tryClose [] then some [] else none
  | c :: r =>
    if tryClose (c :: r) then some [] else (closeSplit r).map (c :: ·)

/-- The greedy `\n?` before the lazy group: prefer consuming a newline,
backtrack to not consuming it. -/
def nlTry (cs : List Char) : Option (List Char) :=
  match cs with
  | c :: r => if c = '\n' then (closeSplit r).orElse (fun _ => closeSplit cs) else closeSplit cs
  | [] => closeSplit []

/-- The greedy `\s*`: try consuming `k` whitespace characters for
`k = max, max-1, …, 0` (backtracking order of the Python regex engine). -/
def wsTryAux : Nat → List Char → Option (List Char)
  | 0, cs => nlTry cs
  | k + 1, cs => (nlTry (cs.drop (k + 1))).orElse (fun _ => wsTryAux k cs)

/-- `\s*\n?(.*?)\n?``` ` with full backtracking, starting at `cs`. -/
def wsTry (cs : List Char) : Option (List Char) :=
  wsTryAux (cs.takeWhile isPyWs).length cs

/-- Attempt the whole pattern `` ```(?:json)?\s*\n?(.*?)\n?``` `` at this
position, returning group 1 on success. -/
def matchFenceAt (cs : List Char) : Option (List Char) :=
  if fenceChars.isPrefixOf cs then
    let r0 := cs.drop 3
    if "json".data.isPrefixOf r0 then
      (wsTry (r0.drop 4)).orElse (fun _ => wsTry r0)
    else wsTry r0
  else none

/-- `re.search` of the fence pattern with `re.DOTALL`: leftmost match wins;
returns group 1. -/
def reSearchFence : List Char → Option (List Char)
  | [] => none
  | c :: r =>
    match matchFenceAt (c :: r) with
    | some g => some g
    | none => reSearchFence r

/-- The string-aware brace-depth walk of `_extract_json_from_content`
(case 3): scan from depth `d`, returning the index at which the depth
first returns to zero. -/
def braceScan : List Char → Int → Bool → Bool → Nat → Option Nat
  | [], _, _, _, _ => none
  | c :: cs, d, inStr, esc, i =>
    if esc then braceScan cs d inStr false (i + 1)
    else if c = bslash then braceScan cs d inStr true (i + 1)
    else if c = dquote then braceScan cs d (!inStr) false (i + 1)
    else if inStr then braceScan cs d inStr false (i + 1)
    else if c = lbrace then braceScan cs (d + 1) inStr false (i + 1)
    else if c = rbrace then
      if d - 1 = 0 then some i else braceScan cs (d - 1) inStr false (i + 1)
    else braceScan cs d inStr false (i + 1)

/-- The analogous bracket-depth walk (case 4). -/
def bracketScan : List Char → Int → Bool → Bool → Nat → Option Nat
  | [], _, _, _, _ => none
  | c :: cs, d, inStr, esc, i =>
    if esc then bracketScan cs d inStr false (i + 1)
    else if c = bslash then bracketScan cs d inStr true (i + 1)
    else if c = dquote then bracketScan cs d (!inStr) false (i + 1)
    else if inStr then bracketScan cs d inStr false (i + 1)
    else if c = '[' then bracketScan cs (d + 1) inStr false (i + 1)
    else if c = ']' then
      if d - 1 = 0 then some i else bracketScan cs (d - 1) inStr false (i + 1)
    else bracketScan cs d inStr false (i + 1)

/-- Candidate substring of case 3: from the first `{` to the position where
the string-aware depth returns to zero. -/
def braceCandidate (cs : List Char) : Option (List Char) :=
  let t := cs.dropWhile (fun c => !(c = lbrace))
  match braceScan t 0 false false 0 with
  | some j => some (t.take (j + 1))
  | none => none

/-- Candidate substring of case 4: from the first `[` to the position where
the bracket depth returns to zero. -/
def bracketCandidate (cs : List Char) : Option (List Char) :=
  let t := cs.dropWhile (fun c => !(c = '['))
  match bracketScan t 0 false false 0 with
  | some j => some (t.take (j + 1))
  | none => none

/-- The two failure modes of `_extract_json_from_content`, both raised as
`AISummaryError` in Python: the immediate empty-content error, and the
final no-JSON error carrying a 200-character preview. -/
inductive ExtractErr : Type where
  | emptyContent : ExtractErr
  | noJson : List Char → ExtractErr

/-- Case 4 of the extractor: bracket walk, list results wrapped as
`{"categories": …}`; on failure the final `AISummaryError` with preview. -/
def bracketStage (c : List Char) : Except ExtractErr JVal :=
  match bracketCandidate c with
  | some s =>
    match jsonLoads s with
    | some (.jarr xs) => .ok (.jobj [("categories".data, .jarr xs)])
    | some v => .ok v
    | none => .error (.noJson (c.take 200))
  | none => .error (.noJson (c.take 200))

/-- Case 3 of the extractor: brace walk with a single parse attempt,
falling through to case 4 on failure. -/
def braceStage (c : List Char) : Except ExtractErr JVal :=
  match braceCandidate c with
  | some s =>
    match jsonLoads s with
    | some v => .ok v
    | none => bracketStage c
  | none => bracketStage c

/-- The model of `_extract_json_from_content` (src/ai_client.py): empty
check, strip, direct parse, fenced-code-block search, brace walk, bracket
walk, final error. Total: a Python `JSONDecodeError` inside any stage is
caught (modelled by `jsonLoads` returning `none`), never propagated. -/
def extractJsonFromContent (content : List Char) : Except ExtractErr JVal :=
  if content = [] then .error .emptyContent
  else
    let c := pyStrip content
    match jsonLoads c with
    | some v => .ok v
    | none =>
      match reSearchFence c with
      | some g =>
        match jsonLoads (pyStrip g) with
        | some v => .ok v
        | none => braceStage c
      | none => braceStage c

lemma takeWhile_append_all {p : Char → Bool} {l r : List Char}
    (hl : ∀ c ∈ l, p c = true) (hr : ∀ d, r.head? = some d → p d = false) :
    (l ++ r).takeWhile p = l := by
  induction l with
  | nil =>
    cases r with
    | nil => rfl
    | cons d r' => simp [List.takeWhile, hr d rfl]
  | cons c l' ih =>
    simp only [List.cons_append, List.takeWhile]
    rw [hl c (by simp)]
    simp [ih (fun c hc => hl c (by simp [hc]))]

lemma dropWhile_append_all {p : Char → Bool} {l r : List Char}
    (hl : ∀ c ∈ l, p c = true) (hr : ∀ d, r.head? = some d → p d = false) :
    (l ++ r).dropWhile p = r := by
  induction l with
  | nil =>
    cases r with
    | nil => rfl
    | cons d r' => simp [List.dropWhile, hr d rfl]
  | cons c l' ih =>
    simp only [List.cons_append, List.dropWhile]
    rw [hl c (by simp)]
    simp [ih (fun c hc => hl c (by simp [hc]))]

lemma digit_props {c : Char} (h : c.isDigit = true) :
    c ≠ 'n' ∧ c ≠ 't' ∧ c ≠ 'f' ∧ c ≠ dquote ∧ c ≠ '-' ∧ c ≠ lbrace ∧
    c ≠ '[' ∧ c ≠ ']' ∧ c ≠ rbrace ∧ c ≠ ',' ∧ isJsonWs c = false := by
  refine ⟨?_, ?_, ?_, ?_, ?_, ?_, ?_, ?_, ?_, ?_, ?_⟩
  all_goals first
  | (rintro rfl; exact absurd h (by decide))
  | (by_contra hw
     simp only [isJsonWs, Bool.or_eq_true, decide_eq_true_eq,
       Bool.not_eq_false] at hw
     rcases hw with ((rfl | rfl) | rfl) | rfl <;> exact absurd h (by decide))

lemma natDigits_spec (n : Nat) :
    ∃ c cs, natDigits n = c :: cs ∧ (∀ x ∈ natDigits n, x.isDigit = true) ∧
      (1 ≤ n → c ≠ '0') := by
  induction n using Nat.strong_induction_on with
  | _ n ih =>
    by_cases h : n < 10
    · rw [natDigits_unfold, if_pos h]
      interval_cases n <;> exact ⟨_, [], rfl, by decide, by decide⟩
    · obtain ⟨c, cs, heq, hdig, hz⟩ := ih (n / 10) (Nat.div_lt_self (by omega) (by omega))
      rw [natDigits_unfold, if_neg h]
      refine ⟨c, cs ++ [digitChar (n % 10)], by rw [heq]; simp, ?_, fun _ => hz (by omega)⟩
      intro x hx
      rcases List.mem_append.mp hx with hx | hx
      · exact hdig x hx
      · have : x = digitChar (n % 10) := by simpa using hx
        subst this
        have h10 : n % 10 < 10 := Nat.mod_lt _ (by omega)
        revert h10
        generalize n % 10 = d
        intro h10
        interval_cases d <;> decide

lemma digitChar_toNat {d : Nat} (h : d < 10) : (digitChar d).toNat = 48 + d := by
  interval_cases d <;> rfl

lemma digitsVal_append_single (ds : List Char) (c : Char) :
    digitsVal (ds ++ [c]) = digitsVal ds * 10 + (c.toNat - 48) := by
  simp [digitsVal, List.foldl_append]

lemma digitsVal_natDigits (n : Nat) : digitsVal (natDigits n) = n := by
  induction n using Nat.strong_induction_on with
  | _ n ih =>
    by_cases h : n < 10
    · rw [natDigits_unfold, if_pos h]
      simp [digitsVal, digitChar_toNat h]
    · rw [natDigits_unfold, if_neg h]
      rw [digitsVal_append_single, ih (n / 10) (Nat.div_lt_self (by omega) (by omega))]
      rw [digitChar_toNat (Nat.mod_lt _ (by omega))]
      omega

/-- Heads that stop the whitespace / digit scans. -/
def noDigitHead (rest : List Char) : Prop :=
  ∀ d, rest.head? = some d → d.isDigit = false

lemma parseNat_natDigits (n : Nat) (rest : List Char) (hrest : noDigitHead rest) :
    parseNat (natDigits n ++ rest) = some (n, rest) := by
  obtain ⟨c, cs, heq, hdig, hz⟩ := natDigits_spec n
  by_cases h0 : n = 0
  · subst h0
    have : natDigits 0 = ['0'] := by rw [natDigits_unfold]; rfl
    rw [this]
    cases rest with
    | nil => rfl
    | cons d r' =>
      have hd := hrest d rfl
      simp [parseNat, hd]
  · rw [heq]
    have hcd : c.isDigit = true := hdig c (by rw [heq]; simp)
    have hcz : c ≠ '0' := hz (by omega)
    simp only [List.cons_append, parseNat]
    rw [if_neg (by simpa using hcz), if_pos hcd]
    have hall : ∀ x ∈ c :: cs, x.isDigit = true := by
      intro x hx; exact hdig x (by rw [heq]; exact hx)
    have hrest' : ∀ d, rest.head? = some d → d.isDigit = false := hrest
    have h1 : ((c :: cs) ++ rest).takeWhile Char.isDigit = c :: cs :=
      takeWhile_append_all hall hrest'
    have h2 : ((c :: cs) ++ rest).dropWhile Char.isDigit = rest :=
      dropWhile_append_all hall hrest'
    simp only [List.cons_append] at h1 h2
    rw [h1, h2, ← heq, digitsVal_natDigits]

lemma parseStrBody_cons_dquote (rest : List Char) :
    parseStrBody (dquote :: rest) = some ([], rest) := by
  rw [parseStrBody.eq_def]
  simp

lemma parseStrBody_cons_esc (e ec : Char) (rest : List Char)
    (he : escUnchar e = some ec) :
    parseStrBody (bslash :: e :: rest) =
      (parseStrBody rest).map (fun p => (ec :: p.1, p.2)) := by
  rw [parseStrBody.eq_def]
  simp [he, bslash, dquote]

lemma parseStrBody_cons_other (c : Char) (rest : List Char)
    (h1 : c ≠ dquote) (h2 : c ≠ bslash) (h3 : 32 ≤ c.toNat) :
    parseStrBody (c :: rest) =
      (parseStrBody rest).map (fun p => (c :: p.1, p.2)) := by
  rw [parseStrBody.eq_def]
  simp [h1, h2, show ¬ c.toNat < 32 by omega]

lemma parseStrBody_escStr (s : List Char) (rest : List Char) (h : wfStr s = true) :
    parseStrBody (escStr s ++ dquote :: rest) = some (s, rest) := by
  induction s with
  | nil => simpa [escStr] using parseStrBody_cons_dquote rest
  | cons c s' ih =>
    have hc : 32 ≤ c.toNat ∧ wfStr s' = true := by
      simpa [wfStr] using h
    have ih' := ih hc.2
    have hbody : escStr (c :: s') ++ dquote :: rest =
        escChar c ++ (escStr s' ++ dquote :: rest) := by
      simp [escStr]
    rw [hbody] at *
    by_cases hq : c = dquote
    · subst hq
      rw [show escChar dquote = [bslash, dquote] from by simp [escChar]]
      rw [List.cons_append, List.cons_append, List.nil_append]
      rw [parseStrBody_cons_esc dquote dquote _ (by simp [escUnchar]), ih']
      rfl
    · by_cases hb : c = bslash
      · subst hb
        rw [show escChar bslash = [bslash, bslash] from by simp [escChar, bslash, dquote]]
        rw [List.cons_append, List.cons_append, List.nil_append]
        rw [parseStrBody_cons_esc bslash bslash _ (by simp [escUnchar, bslash, dquote]), ih']
        rfl
      · rw [show escChar c = [c] from by simp [escChar, hq, hb]]
        rw [List.cons_append, List.nil_append]
        rw [parseStrBody_cons_other c _ hq hb hc.1, ih']
        rfl

lemma skipWs_cons_neg {c : Char} (l : List Char) (h : isJsonWs c = false) :
    skipWs (c :: l) = c :: l := by
  simp [skipWs, List.dropWhile, h]

lemma skipWs_cons_space (l : List Char) : skipWs (' ' :: l) = skipWs l := by
  simp [skipWs, List.dropWhile]
  rfl

lemma serialize_head (v : JVal) :
    ∃ h t, serialize v = h :: t ∧ isJsonWs h = false ∧ h ≠ ']' ∧ h ≠ rbrace ∧
      h ≠ ',' := by
  cases v with
  | jnull => exact ⟨'n', _, rfl, by decide, by decide, by decide, by decide⟩
  | jbool b =>
    cases b
    · exact ⟨'f', _, rfl, by decide, by decide, by decide, by decide⟩
    · exact ⟨'t', _, rfl, by decide, by decide, by decide, by decide⟩
  | jnum i =>
    by_cases hi : i < 0
    · exact ⟨'-', natDigits (-i).toNat, by simp [serialize, intChars, hi],
        by decide, by decide, by decide, by decide⟩
    · obtain ⟨c, cs, heq, hdig, _⟩ := natDigits_spec i.toNat
      obtain ⟨_, _, _, _, _, _, _, h8, h9, h10, h11⟩ :=
        digit_props (hdig c (by rw [heq]; simp))
      exact ⟨c, cs, by simp [serialize, intChars, hi, heq], h11, h8, h9, h10⟩
  | jstr s =>
    exact ⟨dquote, escStr s ++ [dquote], by simp [serialize], by decide, by decide,
      by decide, by decide⟩
  | jarr xs =>
    exact ⟨'[', serArrBody xs ++ [']'], by simp [serialize], by decide, by decide,
      by decide, by decide⟩
  | jobj kvs =>
    exact ⟨lbrace, serObjBody kvs ++ [rbrace], by simp [serialize], by decide,
      by decide, by decide, by decide⟩

lemma skipWs_serialize_append (v : JVal) (r : List Char) :
    skipWs (serialize v ++ r) = serialize v ++ r := by
  obtain ⟨h, t, heq, hws, _⟩ := serialize_head v
  rw [heq, List.cons_append]
  exact skipWs_cons_neg _ hws

lemma serArrBody_cons_eq (y : JVal) (ys : List JVal) :
    ∃ t, serArrBody (y :: ys) = serialize y ++ t := by
  cases ys with
  | nil => exact ⟨[], by simp [serArrBody]⟩
  | cons z zs => exact ⟨", ".data ++ serArrBody (z :: zs), by simp [serArrBody]⟩

lemma serObjBody_cons_eq (kv : List Char × JVal) (kvs : List (List Char × JVal)) :
    ∃ t, serObjBody (kv :: kvs) = serPair kv ++ t := by
  cases kvs with
  | nil => exact ⟨[], by simp [serObjBody]⟩
  | cons kv2 kvs2 => exact ⟨", ".data ++ serObjBody (kv2 :: kvs2), by simp [serObjBody]⟩

lemma noDigitHead_cons {c : Char} (l : List Char) (h : c.isDigit = false) :
    noDigitHead (c :: l) := by
  intro d hd
  simp at hd
  subst hd
  exact h

lemma serPair_eq (k : List Char) (v : JVal) :
    serPair (k, v) = dquote :: (escStr k ++ dquote :: ':' :: ' ' :: serialize v) := by
  simp [serPair]

theorem parse_roundtrip : ∀ n : Nat,
    (∀ v rest, wfVal v = true → fuelVal v ≤ n → noDigitHead rest →
      parseVal n (serialize v ++ rest) = some (v, rest)) ∧
    (∀ xs rest, wfList xs = true → xs ≠ [] → fuelList xs ≤ n →
      parseElems n (serArrBody xs ++ ']' :: rest) = some (xs, rest)) ∧
    (∀ kvs rest, wfPairs kvs = true → kvs ≠ [] → fuelPairs kvs ≤ n →
      parseMembers n (serObjBody kvs ++ rbrace :: rest) = some (kvs, rest)) := by
  intro n
  induction n with
  | zero =>
    refine ⟨?_, ?_, ?_⟩
    · intro v rest _ hf _
      cases v <;> simp [fuelVal] at hf
    · intro xs rest _ hne hf
      cases xs with
      | nil => exact absurd rfl hne
      | cons y ys => simp [fuelList] at hf
    · intro kvs rest _ hne hf
      cases kvs with
      | nil => exact absurd rfl hne
      | cons kv kvs' =>
        obtain ⟨k, v⟩ := kv
        simp [fuelPairs] at hf
  | succ n ih =>
    obtain ⟨ihP, ihQ, ihR⟩ := ih
    refine ⟨?_, ?_, ?_⟩
    · intro v rest hwf hf hrest
      cases v with
      | jnull =>
        rw [show serialize .jnull = 'n' :: 'u' :: 'l' :: 'l' :: [] from rfl]
        simp [parseVal]
      | jbool b =>
        cases b
        · rw [show serialize (.jbool false) = 'f' :: 'a' :: 'l' :: 's' :: 'e' :: [] from rfl]
          simp [parseVal]
        · rw [show serialize (.jbool true) = 't' :: 'r' :: 'u' :: 'e' :: [] from rfl]
          simp [parseVal]
      | jnum i =>
        rw [show serialize (.jnum i) = intChars i from rfl, intChars]
        by_cases hi : i < 0
        · rw [if_pos hi, List.cons_append]
          simp only [parseVal]
          rw [if_neg (by decide), if_neg (by decide), if_neg (by decide),
            if_neg (by decide)]
          rw [if_true]
          rw [parseNat_natDigits _ _ hrest]
          have hcast : ((-i).toNat : Int) = -i := Int.toNat_of_nonneg (by omega)
          simp [hcast]
        · rw [if_neg hi]
          obtain ⟨c, cs, heq, hdig, _⟩ := natDigits_spec i.toNat
          have hcd : c.isDigit = true := hdig c (by rw [heq]; simp)
          obtain ⟨g1, g2, g3, g4, g5, g6, g7, g8, g9, g10, g11⟩ := digit_props hcd
          rw [heq, List.cons_append]
          simp only [parseVal]
          rw [if_neg g1, if_neg g2, if_neg g3, if_neg g4, if_neg g5]
          rw [if_pos hcd]
          rw [show c :: (cs ++ rest) = (c :: cs) ++ rest from rfl, ← heq]
          rw [parseNat_natDigits _ _ hrest]
          have hcast : ((i.toNat : Int)) = i := Int.toNat_of_nonneg (by omega)
          simp [hcast]
      | jstr s =>
        rw [show serialize (.jstr s) = dquote :: (escStr s ++ [dquote]) from by
          simp [serialize]]
        rw [List.cons_append, List.append_assoc]
        simp only [parseVal]
        rw [if_neg (by decide), if_neg (by decide), if_neg (by decide)]
        rw [if_true]
        rw [show ([dquote] ++ rest : List Char) = dquote :: rest from rfl]
        rw [parseStrBody_escStr _ _ (by simpa [wfVal] using hwf)]
        rfl
      | jarr xs =>
        rw [show serialize (.jarr xs) = '[' :: (serArrBody xs ++ [']']) from by
          simp [serialize]]
        rw [List.cons_append, List.append_assoc]
        simp only [parseVal]
        rw [if_neg (by decide), if_neg (by decide), if_neg (by decide),
          if_neg (by decide), if_neg (by decide), if_neg (by decide),
          if_neg (by decide)]
        rw [if_true]
        rw [show ([']'] ++ rest : List Char) = ']' :: rest from rfl]
        cases xs with
        | nil =>
          rw [show serArrBody [] = [] from rfl, List.nil_append]
          rw [skipWs_cons_neg _ (by decide)]
          simp
        | cons y ys =>
          have hskip : skipWs (serArrBody (y :: ys) ++ ']' :: rest) =
              serArrBody (y :: ys) ++ ']' :: rest := by
            obtain ⟨t, ht⟩ := serArrBody_cons_eq y ys
            rw [ht, List.append_assoc]
            exact skipWs_serialize_append y _
          rw [hskip]
          have hhead : ¬ (serArrBody (y :: ys) ++ ']' :: rest).head? = some ']' := by
            obtain ⟨t, ht⟩ := serArrBody_cons_eq y ys
            obtain ⟨h, hd, heq, hws, hne1, hne2, hne3⟩ := serialize_head y
            rw [ht, heq]
            simp [hne1]
          rw [if_neg hhead]
          have hfl : fuelList (y :: ys) ≤ n := by
            simp [fuelVal] at hf
            omega
          rw [ihQ (y :: ys) rest (by simpa [wfVal] using hwf) (by simp) hfl]
          rfl
      | jobj kvs =>
        rw [show serialize (.jobj kvs) = lbrace :: (serObjBody kvs ++ [rbrace]) from by
          simp [serialize]]
        rw [List.cons_append, List.append_assoc]
        simp only [parseVal]
        rw [if_neg (by decide), if_neg (by decide), if_neg (by decide),
          if_neg (by decide), if_neg (by decide), if_neg (by decide)]
        rw [if_true]
        rw [show ([rbrace] ++ rest : List Char) = rbrace :: rest from rfl]
        cases kvs with
        | nil =>
          rw [show serObjBody [] = [] from rfl, List.nil_append]
          rw [skipWs_cons_neg _ (by decide)]
          simp
        | cons kv kvs' =>
          have hskip : skipWs (serObjBody (kv :: kvs') ++ rbrace :: rest) =
              serObjBody (kv :: kvs') ++ rbrace :: rest := by
            obtain ⟨t, ht⟩ := serObjBody_cons_eq kv kvs'
            obtain ⟨k, v⟩ := kv
            rw [ht, serPair_eq, List.append_assoc, List.cons_append]
            exact skipWs_cons_neg _ (by decide)
          rw [hskip]
          have hhead : ¬ (serObjBody (kv :: kvs') ++ rbrace :: rest).head? = some rbrace := by
            obtain ⟨t, ht⟩ := serObjBody_cons_eq kv kvs'
            obtain ⟨k, v⟩ := kv
            rw [ht, serPair_eq]
            simp
            decide
          rw [if_neg hhead]
          have hfl : fuelPairs (kv :: kvs') ≤ n := by
            simp [fuelVal] at hf
            omega
          rw [ihR (kv :: kvs') rest (by simpa [wfVal] using hwf) (by simp) hfl]
          rfl
    · intro xs rest hwf hne hf
      cases xs with
      | nil => exact absurd rfl hne
      | cons y ys =>
        have hwf' : wfVal y = true ∧ wfList ys = true := by
          simpa [wfList] using hwf
        have hfu : fuelVal y ≤ n ∧ fuelList ys ≤ n := by
          simp [fuelList] at hf
          omega
        simp only [parseElems]
        cases ys with
        | nil =>
          rw [show serArrBody [y] = serialize y from by simp [serArrBody]]
          rw [ihP y (']' :: rest) hwf'.1 hfu.1 (noDigitHead_cons _ (by decide))]
          simp only [Option.some_bind]
          rw [skipWs_cons_neg _ (by decide)]
          simp
        | cons z zs =>
          rw [show serArrBody (y :: z :: zs) =
            serialize y ++ (',' :: ' ' :: serArrBody (z :: zs)) from by
              simp [serArrBody]]
          rw [List.append_assoc]
          rw [show ((',' :: ' ' :: serArrBody (z :: zs)) ++ ']' :: rest : List Char) =
            ',' :: ' ' :: (serArrBody (z :: zs) ++ ']' :: rest) from by simp]
          rw [ihP y _ hwf'.1 hfu.1 (noDigitHead_cons _ (by decide))]
          simp only [Option.some_bind]
          rw [skipWs_cons_neg _ (by decide)]
          simp only [List.head?_cons, List.tail_cons]
          first
          | rw [if_pos rfl]
          | rw [if_true]
          rw [skipWs_cons_space]
          have hskip : skipWs (serArrBody (z :: zs) ++ ']' :: rest) =
              serArrBody (z :: zs) ++ ']' :: rest := by
            obtain ⟨t, ht⟩ := serArrBody_cons_eq z zs
            rw [ht, List.append_assoc]
            exact skipWs_serialize_append z _
          rw [hskip]
          rw [ihQ (z :: zs) rest hwf'.2 (by simp) hfu.2]
          rfl
    · intro kvs rest hwf hne hf
      cases kvs with
      | nil => exact absurd rfl hne
      | cons kv kvs' =>
        obtain ⟨k, v⟩ := kv
        have hwf' : (wfStr k = true ∧ wfVal v = true) ∧ wfPairs kvs' = true := by
          simpa [wfPairs] using hwf
        have hfu : fuelVal v ≤ n ∧ fuelPairs kvs' ≤ n := by
          simp [fuelPairs] at hf
          omega
        cases kvs' with
        | nil =>
          rw [show serObjBody [(k, v)] = serPair (k, v) from by simp [serObjBody]]
          rw [serPair_eq, List.cons_append]
          simp only [parseMembers]
          rw [if_true]
          simp only [List.append_eq, List.append_assoc, List.cons_append]
          rw [parseStrBody_escStr _ _ hwf'.1.1]
          simp only [Option.some_bind]
          rw [skipWs_cons_neg _ (by decide)]
          simp only [List.head?_cons, List.tail_cons]
          first
          | rw [if_pos rfl]
          | rw [if_true]
          rw [skipWs_cons_space, skipWs_serialize_append]
          rw [ihP v _ hwf'.1.2 hfu.1 (noDigitHead_cons _ (by decide))]
          simp only [Option.some_bind]
          rw [skipWs_cons_neg _ (by decide)]
          simp only [List.head?_cons, List.tail_cons]
          rw [if_neg (by decide)]
          rw [if_true]
        | cons kv2 kvs2 =>
          rw [show serObjBody ((k, v) :: kv2 :: kvs2) =
            serPair (k, v) ++ (',' :: ' ' :: serObjBody (kv2 :: kvs2)) from by
              simp [serObjBody]]
          rw [serPair_eq, List.cons_append]
          simp only [parseMembers]
          rw [if_true]
          simp only [List.append_eq, List.append_assoc, List.cons_append]
          rw [parseStrBody_escStr _ _ hwf'.1.1]
          simp only [Option.some_bind]
          rw [skipWs_cons_neg _ (by decide)]
          simp only [List.head?_cons, List.tail_cons]
          first
          | rw [if_pos rfl]
          | rw [if_true]
          rw [skipWs_cons_space, skipWs_serialize_append]
          rw [ihP v _ hwf'.1.2 hfu.1 (noDigitHead_cons _ (by decide))]
          simp only [Option.some_bind]
          rw [skipWs_cons_neg _ (by decide)]
          simp only [List.head?_cons, List.tail_cons]
          first
          | rw [if_pos rfl]
          | rw [if_true]
          rw [skipWs_cons_space]
          have hskip : skipWs (serObjBody (kv2 :: kvs2) ++ rbrace :: rest) =
              serObjBody (kv2 :: kvs2) ++ rbrace :: rest := by
            obtain ⟨t, ht⟩ := serObjBody_cons_eq kv2 kvs2
            obtain ⟨k2, v2⟩ := kv2
            rw [ht, serPair_eq, List.append_assoc, List.cons_append]
            exact skipWs_cons_neg _ (by decide)
          rw [hskip]
          rw [ihR (kv2 :: kvs2) rest hwf'.2 (by simp) hfu.2]
          rfl

lemma serialize_ne_nil (v : JVal) : serialize v ≠ [] := by
  obtain ⟨h, t, heq, _⟩ := serialize_head v
  rw [heq]
  simp

lemma fuel_le : ∀ m : Nat,
    (∀ v, fuelVal v ≤ m → fuelVal v ≤ (serialize v).length) ∧
    (∀ xs, fuelList xs ≤ m → fuelList xs ≤ (serArrBody xs).length + 1) ∧
    (∀ kvs, fuelPairs kvs ≤ m → fuelPairs kvs ≤ (serObjBody kvs).length + 1) := by
  intro m
  induction m with
  | zero =>
    refine ⟨?_, ?_, ?_⟩
    · intro v hf
      cases v <;> simp [fuelVal] at hf
    · intro xs hf
      cases xs with
      | nil => simp [fuelList]
      | cons x xs' => simp [fuelList] at hf
    · intro kvs hf
      cases kvs with
      | nil => simp [fuelPairs]
      | cons kv kvs' =>
        obtain ⟨k, v⟩ := kv
        simp [fuelPairs] at hf
  | succ m ih =>
    obtain ⟨ihP, ihQ, ihR⟩ := ih
    refine ⟨?_, ?_, ?_⟩
    · intro v hf
      cases v with
      | jnull => simp [fuelVal, serialize]
      | jbool b => cases b <;> simp [fuelVal, serialize]
      | jnum i =>
        have h1 : 1 ≤ (serialize (JVal.jnum i)).length := by
          have := serialize_ne_nil (.jnum i)
          cases h : serialize (JVal.jnum i) with
          | nil => exact absurd h this
          | cons a l => simp
        simpa [fuelVal] using h1
      | jstr s => simp [fuelVal, serialize]
      | jarr xs =>
        have hq := ihQ xs (by simp [fuelVal] at hf; omega)
        simp [fuelVal, serialize] at *
        omega
      | jobj kvs =>
        have hr := ihR kvs (by simp [fuelVal] at hf; omega)
        simp [fuelVal, serialize] at *
        omega
    · intro xs hf
      cases xs with
      | nil => simp [fuelList]
      | cons x xs' =>
        have hp := ihP x (by simp [fuelList] at hf; omega)
        have hq := ihQ xs' (by simp [fuelList] at hf; omega)
        cases xs' with
        | nil => simp [fuelList, fuelList, serArrBody] at *; omega
        | cons z zs =>
          have harr : serArrBody (x :: z :: zs) =
              serialize x ++ ", ".data ++ serArrBody (z :: zs) := by
            simp [serArrBody]
          rw [harr]
          simp [fuelList] at *
          omega
    · intro kvs hf
      cases kvs with
      | nil => simp [fuelPairs]
      | cons kv kvs' =>
        obtain ⟨k, v⟩ := kv
        have hp := ihP v (by simp [fuelPairs] at hf; omega)
        have hr := ihR kvs' (by simp [fuelPairs] at hf; omega)
        have hpair : (serPair (k, v)).length = (escStr k).length + (serialize v).length + 4 := by
          simp [serPair]
          omega
        cases kvs' with
        | nil =>
          simp only [serObjBody, fuelPairs] at *
          omega
        | cons kv2 kvs2 =>
          have hobj : serObjBody ((k, v) :: kv2 :: kvs2) =
              serPair (k, v) ++ ", ".data ++ serObjBody (kv2 :: kvs2) := by
            simp [serObjBody]
          rw [hobj]
          simp [fuelPairs] at *
          omega

/-- `json.loads` recovers every wellformed value from its `json.dumps`
serialization. -/
theorem jsonLoads_serialize (v : JVal) (hwf : wfVal v = true) :
    jsonLoads (serialize v) = some v := by
  unfold jsonLoads
  have hskip : skipWs (serialize v) = serialize v := by
    have := skipWs_serialize_append v []
    simpa using this
  rw [hskip]
  have hfuel : fuelVal v ≤ (serialize v).length + 1 := by
    have := (fuel_le (fuelVal v)).1 v le_rfl
    omega
  have hp := (parse_roundtrip ((serialize v).length + 1)).1 v [] hwf hfuel
    (by intro d hd; simp at hd)
  rw [List.append_nil] at hp
  rw [hp]
  simp [skipWs]

lemma natDigits_ge32 (n : Nat) : ∀ c ∈ natDigits n, 32 ≤ c.toNat := by
  induction n using Nat.strong_induction_on with
  | _ n ih =>
    rw [natDigits_unfold]
    by_cases h : n < 10
    · rw [if_pos h]
      intro c hc
      simp at hc
      subst hc
      rw [digitChar_toNat h]
      omega
    · rw [if_neg h]
      intro c hc
      rcases List.mem_append.mp hc with hc | hc
      · exact ih (n / 10) (Nat.div_lt_self (by omega) (by omega)) c hc
      · have hce : c = digitChar (n % 10) := by simpa using hc
        subst hce
        rw [digitChar_toNat (Nat.mod_lt _ (by omega))]
        omega

lemma escStr_chars {s : List Char} (hw : wfStr s = true) :
    ∀ c ∈ escStr s, 32 ≤ c.toNat := by
  induction s with
  | nil => simp [escStr]
  | cons a s' ih =>
    have ha : 32 ≤ a.toNat ∧ wfStr s' = true := by simpa [wfStr] using hw
    intro c hc
    rw [show escStr (a :: s') = escChar a ++ escStr s' from by simp [escStr]] at hc
    rcases List.mem_append.mp hc with hc | hc
    · have hsub : c = bslash ∨ c = dquote ∨ c = a := by
        by_cases h1 : a = dquote
        · subst h1
          rw [show escChar dquote = [bslash, dquote] from by simp [escChar]] at hc
          simp at hc
          tauto
        · by_cases h2 : a = bslash
          · subst h2
            rw [show escChar bslash = [bslash, bslash] from by
              simp [escChar, bslash, dquote]] at hc
            simp at hc
            tauto
          · rw [show escChar a = [a] from by simp [escChar, h1, h2]] at hc
            simp at hc
            tauto
      rcases hsub with rfl | rfl | rfl
      · decide
      · decide
      · exact ha.1
    · exact ih ha.2 c hc

lemma serialize_chars : ∀ m : Nat,
    (∀ v, wfVal v = true → fuelVal v ≤ m → ∀ c ∈ serialize v, 32 ≤ c.toNat) ∧
    (∀ xs, wfList xs = true → fuelList xs ≤ m → ∀ c ∈ serArrBody xs, 32 ≤ c.toNat) ∧
    (∀ kvs, wfPairs kvs = true → fuelPairs kvs ≤ m →
      ∀ c ∈ serObjBody kvs, 32 ≤ c.toNat) := by
  intro m
  induction m with
  | zero =>
    refine ⟨?_, ?_, ?_⟩
    · intro v _ hf
      cases v <;> simp [fuelVal] at hf
    · intro xs _ hf
      cases xs with
      | nil => simp [serArrBody]
      | cons x xs' => simp [fuelList] at hf
    · intro kvs _ hf
      cases kvs with
      | nil => simp [serObjBody]
      | cons kv kvs' =>
        obtain ⟨k, v⟩ := kv
        simp [fuelPairs] at hf
  | succ m ih =>
    obtain ⟨ihP, ihQ, ihR⟩ := ih
    refine ⟨?_, ?_, ?_⟩
    · intro v hwf hf
      cases v with
      | jnull => intro c hc; fin_cases hc <;> decide
      | jbool b =>
        cases b <;> (intro c hc; fin_cases hc <;> decide)
      | jnum i =>
        intro c hc
        rw [show serialize (JVal.jnum i) = intChars i from rfl, intChars] at hc
        by_cases hi : i < 0
        · rw [if_pos hi] at hc
          rcases List.mem_cons.mp hc with hc | hc
          · subst hc; decide
          · exact natDigits_ge32 _ c hc
        · rw [if_neg hi] at hc
          exact natDigits_ge32 _ c hc
      | jstr s =>
        intro c hc
        rw [show serialize (JVal.jstr s) = dquote :: (escStr s ++ [dquote]) from by
          simp [serialize]] at hc
        rcases List.mem_cons.mp hc with hc | hc
        · subst hc; decide
        · rcases List.mem_append.mp hc with hc | hc
          · exact escStr_chars (by simpa [wfVal] using hwf) c hc
          · simp at hc; subst hc; decide
      | jarr xs =>
        intro c hc
        rw [show serialize (JVal.jarr xs) = '[' :: (serArrBody xs ++ [']']) from by
          simp [serialize]] at hc
        rcases List.mem_cons.mp hc with hc | hc
        · subst hc; decide
        · rcases List.mem_append.mp hc with hc | hc
          · exact ihQ xs (by simpa [wfVal] using hwf)
              (by simp [fuelVal] at hf; omega) c hc
          · simp at hc; subst hc; decide
      | jobj kvs =>
        intro c hc
        rw [show serialize (JVal.jobj kvs) = lbrace :: (serObjBody kvs ++ [rbrace]) from by
          simp [serialize]] at hc
        rcases List.mem_cons.mp hc with hc | hc
        · subst hc; decide
        · rcases List.mem_append.mp hc with hc | hc
          · exact ihR kvs (by simpa [wfVal] using hwf)
              (by simp [fuelVal] at hf; omega) c hc
          · simp at hc; subst hc; decide
    · intro xs hwf hf
      cases xs with
      | nil => simp [serArrBody]
      | cons x xs' =>
        have hw : wfVal x = true ∧ wfList xs' = true := by simpa [wfList] using hwf
        have hfx : fuelVal x ≤ m ∧ fuelList xs' ≤ m := by
          simp [fuelList] at hf; omega
        intro c hc
        cases xs' with
        | nil =>
          rw [show serArrBody [x] = serialize x from by simp [serArrBody]] at hc
          exact ihP x hw.1 hfx.1 c hc
        | cons z zs =>
          rw [show serArrBody (x :: z :: zs) =
            serialize x ++ ", ".data ++ serArrBody (z :: zs) from by
              simp [serArrBody]] at hc
          rcases List.mem_append.mp hc with hc | hc
          · rcases List.mem_append.mp hc with hc | hc
            · exact ihP x hw.1 hfx.1 c hc
            · fin_cases hc <;> decide
          · exact ihQ (z :: zs) hw.2 hfx.2 c hc
    · intro kvs hwf hf
      cases kvs with
      | nil => simp [serObjBody]
      | cons kv kvs' =>
        obtain ⟨k, v⟩ := kv
        have hw : (wfStr k = true ∧ wfVal v = true) ∧ wfPairs kvs' = true := by
          simpa [wfPairs] using hwf
        have hfx : fuelVal v ≤ m ∧ fuelPairs kvs' ≤ m := by
          simp [fuelPairs] at hf; omega
        have hpair : ∀ c ∈ serPair (k, v), 32 ≤ c.toNat := by
          intro c hc
          rw [serPair_eq] at hc
          rcases List.mem_cons.mp hc with hc | hc
          · subst hc; decide
          · rcases List.mem_append.mp hc with hc | hc
            · exact escStr_chars hw.1.1 c hc
            · rcases List.mem_cons.mp hc with hc | hc
              · subst hc; decide
              · rcases List.mem_cons.mp hc with hc | hc
                · subst hc; decide
                · rcases List.mem_cons.mp hc with hc | hc
                  · subst hc; decide
                  · exact ihP v hw.1.2 hfx.1 c hc
        intro c hc
        cases kvs' with
        | nil =>
          rw [show serObjBody [(k, v)] = serPair (k, v) from by simp [serObjBody]] at hc
          exact hpair c hc
        | cons kv2 kvs2 =>
          rw [show serObjBody ((k, v) :: kv2 :: kvs2) =
            serPair (k, v) ++ ", ".data ++ serObjBody (kv2 :: kvs2) from by
              simp [serObjBody]] at hc
          rcases List.mem_append.mp hc with hc | hc
          · rcases List.mem_append.mp hc with hc | hc
            · exact hpair c hc
            · fin_cases hc <;> decide
          · exact ihR (kv2 :: kvs2) hw.2 hfx.2 c hc

/-- All characters of a wellformed serialization are printable: in
particular no newline occurs. -/
lemma serialize_chars_ge32 (v : JVal) (hwf : wfVal v = true) :
    ∀ c ∈ serialize v, 32 ≤ c.toNat :=
  (serialize_chars (fuelVal v)).1 v hwf le_rfl

lemma braceScan_step_esc (c : Char) (cs : List Char) (d : Int) (s : Bool) (i : Nat) :
    braceScan (c :: cs) d s true i = braceScan cs d s false (i + 1) := by
  simp [braceScan]

lemma braceScan_step_bslash (cs : List Char) (d : Int) (s : Bool) (i : Nat) :
    braceScan (bslash :: cs) d s false i = braceScan cs d s true (i + 1) := by
  simp [braceScan]

lemma braceScan_step_dquote (cs : List Char) (d : Int) (s : Bool) (i : Nat) :
    braceScan (dquote :: cs) d s false i = braceScan cs d (!s) false (i + 1) := by
  simp [braceScan, show ¬ dquote = bslash from by decide]

lemma braceScan_step_instr {c : Char} (cs : List Char) (d : Int) (i : Nat)
    (h1 : c ≠ bslash) (h2 : c ≠ dquote) :
    braceScan (c :: cs) d true false i = braceScan cs d true false (i + 1) := by
  simp [braceScan, h1, h2]

lemma braceScan_step_plain {c : Char} (cs : List Char) (d : Int) (i : Nat)
    (h1 : c ≠ bslash) (h2 : c ≠ dquote) (h3 : c ≠ lbrace) (h4 : c ≠ rbrace) :
    braceScan (c :: cs) d false false i = braceScan cs d false false (i + 1) := by
  simp [braceScan, h1, h2, h3, h4]

lemma braceScan_step_lbrace (cs : List Char) (d : Int) (i : Nat) :
    braceScan (lbrace :: cs) d false false i = braceScan cs (d + 1) false false (i + 1) := by
  simp [braceScan, show ¬ lbrace = bslash from by decide,
    show ¬ lbrace = dquote from by decide]

lemma braceScan_step_rbrace (cs : List Char) (d : Int) (i : Nat) :
    braceScan (rbrace :: cs) d false false i =
      if d - 1 = 0 then some i else braceScan cs (d - 1) false false (i + 1) := by
  simp [braceScan, show ¬ rbrace = bslash from by decide,
    show ¬ rbrace = dquote from by decide, show ¬ rbrace = lbrace from by decide]

/-- A fragment is scan-neutral if, at any positive depth outside a string,
the brace walk passes through it without the depth returning to zero. -/
def ScanNeutral (cs : List Char) : Prop :=
  ∀ d : Int, 1 ≤ d → ∀ rest i,
    braceScan (cs ++ rest) d false false i = braceScan rest d false false (i + cs.length)

/-- A fragment is string-neutral if the walk passes through it staying in
the in-string state. -/
def StrNeutral (cs : List Char) : Prop :=
  ∀ (d : Int) rest i,
    braceScan (cs ++ rest) d true false i = braceScan rest d true false (i + cs.length)

lemma scanNeutral_nil : ScanNeutral [] := by
  intro d _ rest i
  simp

lemma scanNeutral_append {a b : List Char} (ha : ScanNeutral a) (hb : ScanNeutral b) :
    ScanNeutral (a ++ b) := by
  intro d hd rest i
  rw [List.append_assoc, ha d hd, hb d hd, List.length_append, Nat.add_assoc]

lemma strNeutral_append {a b : List Char} (ha : StrNeutral a) (hb : StrNeutral b) :
    StrNeutral (a ++ b) := by
  intro d rest i
  rw [List.append_assoc, ha d, hb d, List.length_append, Nat.add_assoc]

lemma scanNeutral_ofPlain {cs : List Char}
    (h : ∀ c ∈ cs, c ≠ bslash ∧ c ≠ dquote ∧ c ≠ lbrace ∧ c ≠ rbrace) :
    ScanNeutral cs := by
  induction cs with
  | nil => exact scanNeutral_nil
  | cons c cs' ih =>
    intro d hd rest i
    obtain ⟨h1, h2, h3, h4⟩ := h c (by simp)
    rw [List.cons_append, braceScan_step_plain _ _ _ h1 h2 h3 h4]
    rw [ih (fun x hx => h x (by simp [hx])) d hd rest (i + 1)]
    congr 1
    simp [List.length_cons]
    omega

lemma strNeutral_escChar (c : Char) : StrNeutral (escChar c) := by
  intro d rest i
  by_cases hq : c = dquote
  · subst hq
    rw [show escChar dquote = [bslash, dquote] from by simp [escChar]]
    rw [List.cons_append, List.cons_append, List.nil_append]
    rw [braceScan_step_bslash, braceScan_step_esc]
    congr 1
  · by_cases hb : c = bslash
    · subst hb
      rw [show escChar bslash = [bslash, bslash] from by simp [escChar, bslash, dquote]]
      rw [List.cons_append, List.cons_append, List.nil_append]
      rw [braceScan_step_bslash, braceScan_step_esc]
      congr 1
    · rw [show escChar c = [c] from by simp [escChar, hq, hb]]
      rw [List.cons_append, List.nil_append]
      rw [braceScan_step_instr _ _ _ hb hq]
      congr 1

lemma strNeutral_escStr (s : List Char) : StrNeutral (escStr s) := by
  induction s with
  | nil =>
    intro d rest i
    simp [escStr]
  | cons c s' ih =>
    rw [show escStr (c :: s') = escChar c ++ escStr s' from by simp [escStr]]
    exact strNeutral_append (strNeutral_escChar c) ih

/-- A serialized string literal is scan-neutral: quotes toggle the
in-string state and escaped characters never touch the depth. -/
lemma scanNeutral_strLit (s : List Char) :
    ScanNeutral (dquote :: escStr s ++ [dquote]) := by
  intro d _ rest i
  rw [show (dquote :: escStr s ++ [dquote]) ++ rest =
    dquote :: (escStr s ++ ([dquote] ++ rest)) from by simp]
  rw [braceScan_step_dquote]
  simp only [Bool.not_false]
  rw [strNeutral_escStr s d ([dquote] ++ rest) (i + 1)]
  rw [List.singleton_append, braceScan_step_dquote]
  simp only [Bool.not_true]
  congr 1
  simp
  omega

lemma digit_ne_bslash {c : Char} (h : c.isDigit = true) : c ≠ bslash := by
  rintro rfl
  exact absurd h (by decide)

lemma scanNeutral_intChars (i : Int) : ScanNeutral (intChars i) := by
  apply scanNeutral_ofPlain
  intro c hc
  rw [intChars] at hc
  have hdig : ∀ x, x.isDigit = true → x ≠ bslash ∧ x ≠ dquote ∧ x ≠ lbrace ∧
      x ≠ rbrace := by
    intro x hx
    obtain ⟨_, _, _, h4, _, h6, _, _, h9, _, _⟩ := digit_props hx
    exact ⟨digit_ne_bslash hx, h4, h6, h9⟩
  obtain ⟨_, _, _, hsp⟩ := natDigits_spec (i.toNat)
  by_cases hi : i < 0
  · rw [if_pos hi] at hc
    rcases List.mem_cons.mp hc with hc | hc
    · subst hc
      refine ⟨by decide, by decide, by decide, by decide⟩
    · obtain ⟨_, _, _, hsp2⟩ := natDigits_spec ((-i).toNat)
      exact hdig c (hsp2.1 c hc)
  · rw [if_neg hi] at hc
    exact hdig c (hsp.1 c hc)

lemma serialize_neutral : ∀ m : Nat,
    (∀ v, wfVal v = true → fuelVal v ≤ m → ScanNeutral (serialize v)) ∧
    (∀ xs, wfList xs = true → fuelList xs ≤ m → ScanNeutral (serArrBody xs)) ∧
    (∀ kvs, wfPairs kvs = true → fuelPairs kvs ≤ m → ScanNeutral (serObjBody kvs)) := by
  intro m
  induction m with
  | zero =>
    refine ⟨?_, ?_, ?_⟩
    · intro v _ hf
      cases v <;> simp [fuelVal] at hf
    · intro xs _ hf
      cases xs with
      | nil => exact scanNeutral_nil
      | cons x xs' => simp [fuelList] at hf
    · intro kvs _ hf
      cases kvs with
      | nil => exact scanNeutral_nil
      | cons kv kvs' =>
        obtain ⟨k, v⟩ := kv
        simp [fuelPairs] at hf
  | succ m ih =>
    obtain ⟨ihP, ihQ, ihR⟩ := ih
    refine ⟨?_, ?_, ?_⟩
    · intro v hwf hf
      cases v with
      | jnull =>
        apply scanNeutral_ofPlain
        intro c hc
        fin_cases hc <;> exact ⟨by decide, by decide, by decide, by decide⟩
      | jbool b =>
        cases b <;>
          (apply scanNeutral_ofPlain
           intro c hc
           fin_cases hc <;> exact ⟨by decide, by decide, by decide, by decide⟩)
      | jnum i => exact scanNeutral_intChars i
      | jstr s =>
        rw [show serialize (JVal.jstr s) = dquote :: escStr s ++ [dquote] from by
          simp [serialize]]
        exact scanNeutral_strLit s
      | jarr xs =>
        rw [show serialize (JVal.jarr xs) = ['['] ++ (serArrBody xs ++ [']']) from by
          simp [serialize]]
        apply scanNeutral_append
        · apply scanNeutral_ofPlain
          intro c hc
          fin_cases hc <;> exact ⟨by decide, by decide, by decide, by decide⟩
        · apply scanNeutral_append
          · exact ihQ xs (by simpa [wfVal] using hwf) (by simp [fuelVal] at hf; omega)
          · apply scanNeutral_ofPlain
            intro c hc
            fin_cases hc <;> exact ⟨by decide, by decide, by decide, by decide⟩
      | jobj kvs =>
        intro d hd rest i
        rw [show serialize (JVal.jobj kvs) ++ rest =
          lbrace :: (serObjBody kvs ++ ([rbrace] ++ rest)) from by simp [serialize]]
        rw [braceScan_step_lbrace]
        rw [ihR kvs (by simpa [wfVal] using hwf) (by simp [fuelVal] at hf; omega)
          (d + 1) (by omega) ([rbrace] ++ rest) (i + 1)]
        rw [List.singleton_append, braceScan_step_rbrace]
        rw [if_neg (by omega), show (d + 1 - 1 : Int) = d from by omega]
        congr 1
        simp [serialize]
        omega
    · intro xs hwf hf
      cases xs with
      | nil => exact scanNeutral_nil
      | cons x xs' =>
        have hw : wfVal x = true ∧ wfList xs' = true := by simpa [wfList] using hwf
        have hfx : fuelVal x ≤ m ∧ fuelList xs' ≤ m := by
          simp [fuelList] at hf; omega
        cases xs' with
        | nil =>
          rw [show serArrBody [x] = serialize x from by simp [serArrBody]]
          exact ihP x hw.1 hfx.1
        | cons z zs =>
          rw [show serArrBody (x :: z :: zs) =
            serialize x ++ (", ".data ++ serArrBody (z :: zs)) from by
              simp [serArrBody]]
          apply scanNeutral_append (ihP x hw.1 hfx.1)
          apply scanNeutral_append
          · apply scanNeutral_ofPlain
            intro c hc
            fin_cases hc <;> exact ⟨by decide, by decide, by decide, by decide⟩
          · exact ihQ (z :: zs) hw.2 hfx.2
    · intro kvs hwf hf
      cases kvs with
      | nil => exact scanNeutral_nil
      | cons kv kvs' =>
        obtain ⟨k, v⟩ := kv
        have hw : (wfStr k = true ∧ wfVal v = true) ∧ wfPairs kvs' = true := by
          simpa [wfPairs] using hwf
        have hfx : fuelVal v ≤ m ∧ fuelPairs kvs' ≤ m := by
          simp [fuelPairs] at hf; omega
        have hpairN : ScanNeutral (serPair (k, v)) := by
          rw [show serPair (k, v) =
            (dquote :: escStr k ++ [dquote]) ++ (": ".data ++ serialize v) from by
              simp [serPair]]
          apply scanNeutral_append (scanNeutral_strLit k)
          apply scanNeutral_append
          · apply scanNeutral_ofPlain
            intro c hc
            fin_cases hc <;> exact ⟨by decide, by decide, by decide, by decide⟩
          · exact ihP v hw.1.2 hfx.1
        cases kvs' with
        | nil =>
          rw [show serObjBody [(k, v)] = serPair (k, v) from by simp [serObjBody]]
          exact hpairN
        | cons kv2 kvs2 =>
          rw [show serObjBody ((k, v) :: kv2 :: kvs2) =
            serPair (k, v) ++ (", ".data ++ serObjBody (kv2 :: kvs2)) from by
              simp [serObjBody]]
          apply scanNeutral_append hpairN
          apply scanNeutral_append
          · apply scanNeutral_ofPlain
            intro c hc
            fin_cases hc <;> exact ⟨by decide, by decide, by decide, by decide⟩
          · exact ihR (kv2 :: kvs2) hw.2 hfx.2

/-- The string-aware brace walk of case 3 consumes exactly the
serialization of a wellformed object, whatever follows it. -/
lemma braceScan_obj (kvs : List (List Char × JVal)) (rest : List Char)
    (hwf : wfVal (JVal.jobj kvs) = true) :
    braceScan (serialize (JVal.jobj kvs) ++ rest) 0 false false 0 =
      some ((serialize (JVal.jobj kvs)).length - 1) := by
  rw [show serialize (JVal.jobj kvs) ++ rest =
    lbrace :: (serObjBody kvs ++ ([rbrace] ++ rest)) from by simp [serialize]]
  rw [braceScan_step_lbrace]
  rw [(serialize_neutral (fuelPairs kvs)).2.2 kvs (by simpa [wfVal] using hwf) le_rfl
    (0 + 1) (by omega) ([rbrace] ++ rest) (0 + 1)]
  rw [List.singleton_append, braceScan_step_rbrace]
  rw [if_pos (by omega)]
  congr 1
  simp [serialize]
  omega

/-- Case 3 of the extractor on content whose prefix contains no `{`:
the candidate substring is exactly the serialized object. -/
lemma braceCandidate_parts (pre : List Char) (kvs : List (List Char × JVal))
    (post : List Char) (hpre : ∀ c ∈ pre, ¬ c = lbrace)
    (hwf : wfVal (JVal.jobj kvs) = true) :
    braceCandidate (pre ++ (serialize (JVal.jobj kvs) ++ post)) =
      some (serialize (JVal.jobj kvs)) := by
  rw [braceCandidate]
  have hdrop : (pre ++ (serialize (JVal.jobj kvs) ++ post)).dropWhile
      (fun c => !(c = lbrace)) = serialize (JVal.jobj kvs) ++ post := by
    apply dropWhile_append_all
    · intro c hc
      simp [hpre c hc]
    · intro dch hd
      rw [show serialize (JVal.jobj kvs) ++ post =
        lbrace :: (serObjBody kvs ++ [rbrace] ++ post) from by simp [serialize]] at hd
      simp at hd
      simp [hd]
  rw [hdrop, braceScan_obj kvs post hwf]
  have hlen : 1 ≤ (serialize (JVal.jobj kvs)).length := by
    have := serialize_ne_nil (.jobj kvs)
    cases h : serialize (JVal.jobj kvs) with
    | nil => exact absurd h this
    | cons a l => simp
  show some (List.take ((serialize (JVal.jobj kvs)).length - 1 + 1)
    (serialize (JVal.jobj kvs) ++ post)) = some (serialize (JVal.jobj kvs))
  rw [show (serialize (JVal.jobj kvs)).length - 1 + 1 =
    (serialize (JVal.jobj kvs)).length from by omega]
  rw [List.take_left]

/-- Three consecutive backticks occur somewhere in the input. -/
def hasTriple : List Char → Bool
  | [] => false
  | c :: rest => fenceChars.isPrefixOf (c :: rest) || hasTriple rest

lemma hasTriple_cons_false {c : Char} {r : List Char} (h : hasTriple (c :: r) = false) :
    fenceChars.isPrefixOf (c :: r) = false ∧ hasTriple r = false := by
  simpa [hasTriple] using h

lemma matchFenceAt_none {cs : List Char} (h : fenceChars.isPrefixOf cs = false) :
    matchFenceAt cs = none := by
  simp [matchFenceAt, h]

/-- `re.search` finds nothing when the input has no triple backtick. -/
lemma reSearchFence_none (cs : List Char) (h : hasTriple cs = false) :
    reSearchFence cs = none := by
  induction cs with
  | nil => rfl
  | cons c r ih =>
    obtain ⟨h1, h2⟩ := hasTriple_cons_false h
    rw [reSearchFence, matchFenceAt_none h1]
    exact ih h2

lemma isPrefixOf_btick_of_no_btick {l : List Char} (hl : ∀ c ∈ l, c ≠ btick)
    (xs : List Char) : (btick :: xs).isPrefixOf l = false := by
  cases l with
  | nil => rfl
  | cons a l' =>
    have := hl a (by simp)
    simp [List.isPrefixOf, this]
    intro h
    exact absurd h.symm this

lemma hasTriple_of_no_btick {l : List Char} (hl : ∀ c ∈ l, c ≠ btick) :
    hasTriple l = false := by
  induction l with
  | nil => rfl
  | cons a l' ih =>
    rw [hasTriple]
    rw [show fenceChars = btick :: [btick, btick] from rfl,
      isPrefixOf_btick_of_no_btick hl]
    exact ih (fun c hc => hl c (by simp [hc]))

lemma hasTriple_append_left {pre cs : List Char} (hp : ∀ c ∈ pre, c ≠ btick) :
    hasTriple (pre ++ cs) = hasTriple cs := by
  induction pre with
  | nil => rfl
  | cons a pre' ih =>
    rw [List.cons_append, hasTriple]
    rw [show fenceChars = btick :: [btick, btick] from rfl]
    have ha : a ≠ btick := hp a (by simp)
    rw [show ((btick :: [btick, btick]).isPrefixOf (a :: (pre' ++ cs))) = false from by
      simp [List.isPrefixOf]
      intro h
      exact absurd h.symm ha]
    rw [Bool.false_or]
    exact ih (fun c hc => hp c (by simp [hc]))

lemma hasTriple_append_right {cs post : List Char} (hpost : ∀ c ∈ post, c ≠ btick)
    (h : hasTriple cs = false) : hasTriple (cs ++ post) = false := by
  induction cs with
  | nil => exact hasTriple_of_no_btick hpost
  | cons c cs' ih =>
    obtain ⟨h1, h2⟩ := hasTriple_cons_false h
    rw [List.cons_append, hasTriple]
    rw [ih h2, Bool.or_false]
    cases cs' with
    | nil =>
      rw [show fenceChars = btick :: btick :: [btick] from rfl]
      cases hb : (btick == c) with
      | false => simp [List.isPrefixOf, hb]
      | true =>
        simp only [List.nil_append, List.isPrefixOf, hb, Bool.true_and]
        exact isPrefixOf_btick_of_no_btick hpost [btick]
    | cons c2 cs'' =>
      cases cs'' with
      | nil =>
        rw [show fenceChars = btick :: btick :: [btick] from rfl]
        cases hb : (btick == c) with
        | false => simp [List.isPrefixOf, hb]
        | true =>
          cases hb2 : (btick == c2) with
          | false => simp [List.isPrefixOf, hb, hb2]
          | true =>
            simp only [List.cons_append, List.nil_append, List.isPrefixOf, hb, hb2,
              Bool.true_and]
            exact isPrefixOf_btick_of_no_btick hpost []
      | cons c3 rest =>
        have heq : fenceChars.isPrefixOf (c :: c2 :: c3 :: (rest ++ post)) =
            fenceChars.isPrefixOf (c :: c2 :: c3 :: rest) := by
          simp [fenceChars, List.isPrefixOf]
        rw [show (c2 :: c3 :: rest) ++ post = c2 :: c3 :: (rest ++ post) from by simp]
        rw [heq]
        exact h1

/-- The lazy group stops at the first closing position: if no proper
nonempty suffix of `cs` closes, the group is exactly `cs`. -/
lemma closeSplit_exact (cs tail : List Char)
    (h1 : ∀ s, s ≠ [] → s <:+ cs → tryClose (s ++ tail) = false)
    (h2 : tryClose tail = true) : closeSplit (cs ++ tail) = some cs := by
  induction cs with
  | nil =>
    cases tail with
    | nil => exact absurd h2 (by decide)
    | cons t ts => simp [closeSplit, h2]
  | cons c cs' ih =>
    rw [List.cons_append, closeSplit]
    have h1' := h1 (c :: cs') (by simp) (List.suffix_refl _)
    rw [List.cons_append] at h1'
    rw [h1', if_neg (by simp)]
    rw [ih (fun s hs hsuf => h1 s hs (hsuf.trans (List.suffix_cons c cs')))]
    rfl

lemma hasTriple_suffix {cs s : List Char} (hsuf : s <:+ cs)
    (h : hasTriple cs = false) : hasTriple s = false := by
  induction cs generalizing s with
  | nil =>
    rw [List.suffix_nil.mp hsuf]
    rfl
  | cons c cs' ih =>
    rcases List.suffix_cons_iff.mp hsuf with rfl | hsuf'
    · exact h
    · exact ih hsuf' (hasTriple_cons_false h).2

/-- No nonempty suffix of a triple-free, newline-free string followed by
the closing `` \n``` `` can itself close the lazy group. -/
lemma tryClose_suffix_false {ser : List Char} (htr : hasTriple ser = false)
    (hnl : ∀ c ∈ ser, 32 ≤ c.toNat) (s : List Char) (hs : s ≠ []) (hsuf : s <:+ ser) :
    tryClose (s ++ ('\n' :: fenceChars)) = false := by
  cases s with
  | nil => exact absurd rfl hs
  | cons a s' =>
    have hmem : ∀ c ∈ a :: s', 32 ≤ c.toNat := by
      intro c hc
      exact hnl c (hsuf.subset hc)
    have hne : ¬ a = '\n' := by
      intro h
      subst h
      have := hmem '\n' (by simp)
      simp at this
    have hpre : fenceChars.isPrefixOf ((a :: s') ++ ('\n' :: fenceChars)) = false := by
      have hsf : hasTriple (a :: s') = false := hasTriple_suffix hsuf htr
      have hfirst : fenceChars.isPrefixOf (a :: s') = false := (hasTriple_cons_false hsf).1
      cases s' with
      | nil =>
        rw [show fenceChars = btick :: btick :: [btick] from rfl]
        cases hb : (btick == a) with
        | false => simp [List.isPrefixOf, hb]
        | true => simp [List.isPrefixOf, hb] <;> decide
      | cons a2 s'' =>
        cases s'' with
        | nil =>
          rw [show fenceChars = btick :: btick :: [btick] from rfl]
          cases hb : (btick == a) with
          | false => simp [List.isPrefixOf, hb]
          | true =>
            cases hb2 : (btick == a2) with
            | false => simp [List.isPrefixOf, hb, hb2]
            | true => simp [List.isPrefixOf, hb, hb2] <;> decide
        | cons a3 srest =>
          have heq : fenceChars.isPrefixOf (a :: a2 :: a3 :: (srest ++ ('\n' :: fenceChars))) =
              fenceChars.isPrefixOf (a :: a2 :: a3 :: srest) := by
            simp [fenceChars, List.isPrefixOf]
          show fenceChars.isPrefixOf (a :: a2 :: a3 :: (srest ++ '\n' :: fenceChars)) = false
          rw [heq]
          exact hfirst
    have hpre' : fenceChars.isPrefixOf (a :: (s' ++ '\n' :: fenceChars)) = false := by
      simpa using hpre
    simp [tryClose, hpre', hne]

lemma isPrefixOf_self_append (l r : List Char) : l.isPrefixOf (l ++ r) = true := by
  induction l with
  | nil => simp [List.isPrefixOf]
  | cons c l' ih => simp [List.isPrefixOf, ih]

lemma pyStrip_noop {cs : List Char} (h1 : ∀ c, cs.head? = some c → isPyWs c = false)
    (h2 : ∀ c, cs.getLast? = some c → isPyWs c = false) : pyStrip cs = cs := by
  rw [pyStrip]
  have hd : cs.dropWhile isPyWs = cs := by
    cases cs with
    | nil => rfl
    | cons c r => simp [List.dropWhile, h1 c rfl]
  rw [hd]
  have hr : cs.reverse.dropWhile isPyWs = cs.reverse := by
    cases hrev : cs.reverse with
    | nil => rfl
    | cons c r =>
      have hlast : cs.getLast? = some c := by
        rw [← List.head?_reverse, hrev]
        rfl
      simp [List.dropWhile, h2 c hlast]
  rw [hr, List.reverse_reverse]

lemma pyStrip_all_ws {cs : List Char} (h : ∀ c ∈ cs, isPyWs c = true) :
    pyStrip cs = [] := by
  rw [pyStrip]
  have hd : cs.dropWhile isPyWs = [] := List.dropWhile_eq_nil_iff.mpr h
  rw [hd]
  rfl

lemma parseVal_bad_head (n : Nat) {c : Char} (rest : List Char)
    (h1 : c ≠ 'n') (h2 : c ≠ 't') (h3 : c ≠ 'f') (h4 : c ≠ dquote) (h5 : c ≠ '-')
    (h6 : c.isDigit = false) (h7 : c ≠ lbrace) (h8 : c ≠ '[') :
    parseVal n (c :: rest) = none := by
  cases n with
  | zero => rfl
  | succ n => simp [parseVal, h1, h2, h3, h4, h5, h6, h7, h8]

lemma jsonLoads_bad_head {c : Char} (rest : List Char) (hws : isJsonWs c = false)
    (h1 : c ≠ 'n') (h2 : c ≠ 't') (h3 : c ≠ 'f') (h4 : c ≠ dquote) (h5 : c ≠ '-')
    (h6 : c.isDigit = false) (h7 : c ≠ lbrace) (h8 : c ≠ '[') :
    jsonLoads (c :: rest) = none := by
  rw [jsonLoads, skipWs_cons_neg _ hws,
    parseVal_bad_head _ _ h1 h2 h3 h4 h5 h6 h7 h8]

/-- The markdown fence wrapping of a payload:
`` ```json\n`` … `` \n``` ``. -/
def fencedWrap (cs : List Char) : List Char :=
  fenceChars ++ ("json\n".data ++ (cs ++ '\n' :: fenceChars))

/-- Group 1 of the fence regex on a fenced wellformed object without
triple backticks is exactly the serialized object. -/
lemma matchFenceAt_fenced (kvs : List (List Char × JVal))
    (hwf : wfVal (JVal.jobj kvs) = true)
    (htr : hasTriple (serialize (JVal.jobj kvs)) = false) :
    matchFenceAt (fencedWrap (serialize (JVal.jobj kvs))) =
      some (serialize (JVal.jobj kvs)) := by
  have hser := serialize_chars_ge32 (.jobj kvs) hwf
  rw [fencedWrap]
  simp only [matchFenceAt]
  rw [isPrefixOf_self_append]
  rw [if_pos rfl]
  have hd3 : (fenceChars ++ ("json\n".data ++
      (serialize (JVal.jobj kvs) ++ '\n' :: fenceChars))).drop 3 =
      "json\n".data ++ (serialize (JVal.jobj kvs) ++ '\n' :: fenceChars) := by
    rw [show (3 : Nat) = fenceChars.length from rfl, List.drop_left]
  rw [hd3]
  rw [show ("json\n".data : List Char) = "json".data ++ ['\n'] from rfl]
  rw [List.append_assoc, List.singleton_append]
  rw [isPrefixOf_self_append]
  rw [if_pos rfl]
  have hd4 : ("json".data ++ ('\n' :: (serialize (JVal.jobj kvs) ++
      '\n' :: fenceChars))).drop 4 =
      '\n' :: (serialize (JVal.jobj kvs) ++ '\n' :: fenceChars) := by
    rw [show (4 : Nat) = ("json".data : List Char).length from rfl, List.drop_left]
  rw [hd4]
  have hclose : closeSplit (serialize (JVal.jobj kvs) ++ '\n' :: fenceChars) =
      some (serialize (JVal.jobj kvs)) := by
    apply closeSplit_exact
    · exact fun s hs hsuf => tryClose_suffix_false htr hser s hs hsuf
    · decide
  have hws : wsTry ('\n' :: (serialize (JVal.jobj kvs) ++ '\n' :: fenceChars)) =
      some (serialize (JVal.jobj kvs)) := by
    rw [wsTry]
    have htake : (('\n' :: (serialize (JVal.jobj kvs) ++
        '\n' :: fenceChars)).takeWhile isPyWs).length = 1 := by
      rw [show serialize (JVal.jobj kvs) ++ '\n' :: fenceChars =
        lbrace :: (serObjBody kvs ++ [rbrace] ++ '\n' :: fenceChars) from by
          simp [serialize]]
      simp [List.takeWhile, show isPyWs '\n' = true from by decide,
        show isPyWs lbrace = false from by decide]
    rw [htake]
    rw [wsTryAux]
    rw [show ('\n' :: (serialize (JVal.jobj kvs) ++ '\n' :: fenceChars)).drop (0 + 1) =
      serialize (JVal.jobj kvs) ++ '\n' :: fenceChars from rfl]
    have hnl : nlTry (serialize (JVal.jobj kvs) ++ '\n' :: fenceChars) =
        some (serialize (JVal.jobj kvs)) := by
      rw [show serialize (JVal.jobj kvs) ++ '\n' :: fenceChars =
        lbrace :: (serObjBody kvs ++ [rbrace] ++ '\n' :: fenceChars) from by
          simp [serialize]]
      rw [nlTry]
      rw [if_neg (by decide)]
      rw [show lbrace :: (serObjBody kvs ++ [rbrace] ++ '\n' :: fenceChars) =
        serialize (JVal.jobj kvs) ++ '\n' :: fenceChars from by simp [serialize]]
      exact hclose
    rw [hnl]
    rfl
  rw [hws]
  rfl

lemma reSearchFence_fenced (kvs : List (List Char × JVal))
    (hwf : wfVal (JVal.jobj kvs) = true)
    (htr : hasTriple (serialize (JVal.jobj kvs)) = false) :
    reSearchFence (fencedWrap (serialize (JVal.jobj kvs))) =
      some (serialize (JVal.jobj kvs)) := by
  have hm := matchFenceAt_fenced kvs hwf htr
  rw [show fencedWrap (serialize (JVal.jobj kvs)) =
    btick :: (btick :: btick :: ("json\n".data ++
      (serialize (JVal.jobj kvs) ++ '\n' :: fenceChars))) from rfl] at hm ⊢
  rw [reSearchFence, hm]

lemma serialize_obj_getLast (kvs : List (List Char × JVal)) :
    (serialize (JVal.jobj kvs)).getLast? = some rbrace := by
  rw [show serialize (JVal.jobj kvs) = (lbrace :: serObjBody kvs) ++ [rbrace] from by
    simp [serialize]]
  exact List.getLast?_concat _

lemma pyStrip_serialize_obj (kvs : List (List Char × JVal)) :
    pyStrip (serialize (JVal.jobj kvs)) = serialize (JVal.jobj kvs) := by
  apply pyStrip_noop
  · intro c hc
    rw [show serialize (JVal.jobj kvs) =
      lbrace :: (serObjBody kvs ++ [rbrace]) from by simp [serialize]] at hc
    simp at hc
    subst hc
    decide
  · intro c hc
    rw [serialize_obj_getLast] at hc
    simp at hc
    subst hc
    decide

/-- Case 1 of the extractor succeeds on a bare serialized object. -/
lemma extract_direct (kvs : List (List Char × JVal))
    (hwf : wfVal (JVal.jobj kvs) = true) :
    extractJsonFromContent (serialize (JVal.jobj kvs)) = .ok (JVal.jobj kvs) := by
  simp only [extractJsonFromContent]
  rw [if_neg (serialize_ne_nil _)]
  rw [pyStrip_serialize_obj, jsonLoads_serialize _ hwf]

/-- Cases 1 and 2 of the extractor on a fenced serialized object: the
direct parse fails on the backtick, the regex group is the object. -/
lemma extract_fenced (kvs : List (List Char × JVal))
    (hwf : wfVal (JVal.jobj kvs) = true)
    (htr : hasTriple (serialize (JVal.jobj kvs)) = false) :
    extractJsonFromContent (fencedWrap (serialize (JVal.jobj kvs))) =
      .ok (JVal.jobj kvs) := by
  have hne : fencedWrap (serialize (JVal.jobj kvs)) ≠ [] := by
    rw [show fencedWrap (serialize (JVal.jobj kvs)) = btick ::
      (btick :: btick :: ("json\n".data ++
        (serialize (JVal.jobj kvs) ++ '\n' :: fenceChars))) from rfl]
    simp
  have hstrip : pyStrip (fencedWrap (serialize (JVal.jobj kvs))) =
      fencedWrap (serialize (JVal.jobj kvs)) := by
    apply pyStrip_noop
    · intro c hc
      rw [show fencedWrap (serialize (JVal.jobj kvs)) = btick ::
        (btick :: btick :: ("json\n".data ++
          (serialize (JVal.jobj kvs) ++ '\n' :: fenceChars))) from rfl] at hc
      simp at hc
      subst hc
      decide
    · intro c hc
      rw [show fencedWrap (serialize (JVal.jobj kvs)) =
        (fenceChars ++ ("json\n".data ++ (serialize (JVal.jobj kvs) ++
          ['\n', btick, btick]))) ++ [btick] from by
            simp [fencedWrap, fenceChars]] at hc
      rw [List.getLast?_concat] at hc
      simp at hc
      subst hc
      decide
  have hloads : jsonLoads (fencedWrap (serialize (JVal.jobj kvs))) = none := by
    rw [show fencedWrap (serialize (JVal.jobj kvs)) = btick ::
      (btick :: btick :: ("json\n".data ++
        (serialize (JVal.jobj kvs) ++ '\n' :: fenceChars))) from rfl]
    exact jsonLoads_bad_head _ (by decide) (by decide) (by decide) (by decide)
      (by decide) (by decide) (by decide) (by decide) (by decide)
  simp only [extractJsonFromContent]
  rw [if_neg hne, hstrip, hloads, reSearchFence_fenced kvs hwf htr]
  dsimp only
  rw [pyStrip_serialize_obj, jsonLoads_serialize _ hwf]

/-- The prose embedding used by the spec:
`"here is the result: " + str(X) + " thanks"`. -/
def proseWrap (cs : List Char) : List Char :=
  "here is the result: ".data ++ (cs ++ " thanks".data)

/-- Case 3 of the extractor on a prose-embedded serialized object without
triple backticks: the direct parse fails, the regex finds no fence, and
the brace walk recovers the object. -/
lemma extract_prose (kvs : List (List Char × JVal))
    (hwf : wfVal (JVal.jobj kvs) = true)
    (htr : hasTriple (serialize (JVal.jobj kvs)) = false) :
    extractJsonFromContent (proseWrap (serialize (JVal.jobj kvs))) =
      .ok (JVal.jobj kvs) := by
  have hne : proseWrap (serialize (JVal.jobj kvs)) ≠ [] := by
    rw [proseWrap]
    simp
  have hstrip : pyStrip (proseWrap (serialize (JVal.jobj kvs))) =
      proseWrap (serialize (JVal.jobj kvs)) := by
    apply pyStrip_noop
    · intro c hc
      rw [show proseWrap (serialize (JVal.jobj kvs)) = 'h' ::
        ("ere is the result: ".data ++
          (serialize (JVal.jobj kvs) ++ " thanks".data)) from rfl] at hc
      simp at hc
      subst hc
      decide
    · intro c hc
      rw [show proseWrap (serialize (JVal.jobj kvs)) =
        ("here is the result: ".data ++ (serialize (JVal.jobj kvs) ++
          " thank".data)) ++ ['s'] from by simp [proseWrap]] at hc
      rw [List.getLast?_concat] at hc
      simp at hc
      subst hc
      decide
  have hloads : jsonLoads (proseWrap (serialize (JVal.jobj kvs))) = none := by
    rw [show proseWrap (serialize (JVal.jobj kvs)) = 'h' ::
      ("ere is the result: ".data ++
        (serialize (JVal.jobj kvs) ++ " thanks".data)) from rfl]
    exact jsonLoads_bad_head _ (by decide) (by decide) (by decide) (by decide)
      (by decide) (by decide) (by decide) (by decide) (by decide)
  have hsearch : reSearchFence (proseWrap (serialize (JVal.jobj kvs))) = none := by
    apply reSearchFence_none
    rw [proseWrap]
    rw [hasTriple_append_left (by decide)]
    exact hasTriple_append_right (by decide) htr
  have hcand : braceCandidate (proseWrap (serialize (JVal.jobj kvs))) =
      some (serialize (JVal.jobj kvs)) :=
    braceCandidate_parts _ kvs _ (by decide) hwf
  simp only [extractJsonFromContent]
  rw [if_neg hne, hstrip, hloads, hsearch]
  dsimp only
  simp only [braceStage]
  rw [hcand]
  dsimp only
  rw [jsonLoads_serialize _ hwf]

/-- The object `{"a": "1``` 2 ```3"}` whose string value contains two
triple-backtick runs. -/
def tripleBacktickObj : List (List Char × JVal) :=
  [("a".data, JVal.jstr ("1".data ++ fenceChars ++ " 2 ".data ++ fenceChars ++ "3".data))]

/-- C1 counterexample: the extractor round-trip fails as universally
stated.  For the valid JSON object `{"a": "1``` 2 ```3"}` embedded in the
spec's prose (`"here is the result: " + str(X) + " thanks"`), the fenced
code-block regex matches the text between the two interior backtick runs,
`json.loads("2")` succeeds, and the extractor returns the number `2`
instead of recovering the object. -/
theorem c1_extractor_roundtrip_counterexample :
    extractJsonFromContent (proseWrap (serialize (JVal.jobj tripleBacktickObj))) =
      .ok (JVal.jnum 2) ∧
    JVal.jnum 2 ≠ JVal.jobj tripleBacktickObj := by
  exact ⟨rfl, fun h => JVal.noConfusion h⟩

/-- C1 (amended): for every wellformed JSON object `X` whose serialization
contains no triple-backtick run, `_extract_json_from_content` recovers `X`
from the plain serialization (case 1, direct parse), from the
```` ```json ````-fenced wrapping (case 2, fenced-block regex), and from
the spec's prose embedding (case 3, string-aware brace-matching walk). -/
theorem c1_extractor_roundtrip_amended (kvs : List (List Char × JVal))
    (hwf : wfVal (JVal.jobj kvs) = true)
    (htr : hasTriple (serialize (JVal.jobj kvs)) = false) :
    extractJsonFromContent (serialize (JVal.jobj kvs)) = .ok (JVal.jobj kvs) ∧
    extractJsonFromContent (fencedWrap (serialize (JVal.jobj kvs))) =
      .ok (JVal.jobj kvs) ∧
    extractJsonFromContent (proseWrap (serialize (JVal.jobj kvs))) =
      .ok (JVal.jobj kvs) :=
  ⟨extract_direct kvs hwf, extract_fenced kvs hwf htr, extract_prose kvs hwf htr⟩

/-- C1 witness: the amended round-trip at the concrete object
`{"a": 1, "b": "x"}`. -/
theorem c1_extractor_roundtrip_witness :
    extractJsonFromContent (serialize (JVal.jobj
      [("a".data, JVal.jnum 1), ("b".data, JVal.jstr "x".data)])) =
      .ok (JVal.jobj [("a".data, JVal.jnum 1), ("b".data, JVal.jstr "x".data)]) ∧
    extractJsonFromContent (fencedWrap (serialize (JVal.jobj
      [("a".data, JVal.jnum 1), ("b".data, JVal.jstr "x".data)]))) =
      .ok (JVal.jobj [("a".data, JVal.jnum 1), ("b".data, JVal.jstr "x".data)]) ∧
    extractJsonFromContent (proseWrap (serialize (JVal.jobj
      [("a".data, JVal.jnum 1), ("b".data, JVal.jstr "x".data)]))) =
      .ok (JVal.jobj [("a".data, JVal.jnum 1), ("b".data, JVal.jstr "x".data)]) :=
  c1_extractor_roundtrip_amended
    [("a".data, JVal.jnum 1), ("b".data, JVal.jstr "x".data)] rfl rfl

/-- The spec's depth-walk edge case `{"a": "value with } inside"}`. -/
def embeddedBraceObj : List (List Char × JVal) :=
  [("a".data, JVal.jstr ("value with ".data ++ rbrace :: " inside".data))]

/-- An object whose string value contains backslash-escaped quotes around
a brace: `{"a": "x\"}\"y"}`. -/
def escapedQuoteObj : List (List Char × JVal) :=
  [("a".data, JVal.jstr ("x".data ++ dquote :: rbrace :: dquote :: "y".data))]

/-- C2: the string-aware brace-depth walk of the extractor parses every
wellformed serialized object as one complete object — braces and quotes
inside string values, including backslash-escaped quotes, never perturb
the depth counter or terminate the scan early.  In particular, on the
spec's concrete input `{"a": "value with } inside"}` the walk consumes the
whole object and the extractor recovers it, and likewise for the
escaped-quote input `{"a": "x\"}\"y"}`. -/
theorem c2_string_aware_depth_walk (kvs : List (List Char × JVal))
    (hwf : wfVal (JVal.jobj kvs) = true) :
    braceCandidate (serialize (JVal.jobj kvs)) = some (serialize (JVal.jobj kvs)) ∧
    braceCandidate (serialize (JVal.jobj embeddedBraceObj)) =
      some (serialize (JVal.jobj embeddedBraceObj)) ∧
    extractJsonFromContent (serialize (JVal.jobj embeddedBraceObj)) =
      .ok (JVal.jobj embeddedBraceObj) ∧
    braceCandidate (serialize (JVal.jobj escapedQuoteObj)) =
      some (serialize (JVal.jobj escapedQuoteObj)) ∧
    extractJsonFromContent (proseWrap (serialize (JVal.jobj escapedQuoteObj))) =
      .ok (JVal.jobj escapedQuoteObj) := by
  refine ⟨?_, rfl, rfl, rfl, rfl⟩
  have := braceCandidate_parts [] kvs [] (by simp) hwf
  simpa using this

/-- C2 witness: the depth walk at the concrete spec input. -/
theorem c2_string_aware_depth_walk_witness :
    braceCandidate (serialize (JVal.jobj embeddedBraceObj)) =
      some (serialize (JVal.jobj embeddedBraceObj)) ∧
    braceCandidate (serialize (JVal.jobj embeddedBraceObj)) =
      some (serialize (JVal.jobj embeddedBraceObj)) ∧
    extractJsonFromContent (serialize (JVal.jobj embeddedBraceObj)) =
      .ok (JVal.jobj embeddedBraceObj) ∧
    braceCandidate (serialize (JVal.jobj escapedQuoteObj)) =
      some (serialize (JVal.jobj escapedQuoteObj)) ∧
    extractJsonFromContent (proseWrap (serialize (JVal.jobj escapedQuoteObj))) =
      .ok (JVal.jobj escapedQuoteObj) :=
  c2_string_aware_depth_walk embeddedBraceObj rfl

/-- C7 counterexample: an all-whitespace input does not fail "immediately,
before any parse attempt".  The extractor's empty-content guard is Python
`if not content:`, which an all-whitespace string passes; `" "` flows
through every parse stage and fails with the final no-JSON error (carrying
the preview of the stripped content), not with the immediate
empty-content error of case 0. -/
theorem c7_empty_input_counterexample :
    extractJsonFromContent [' '] = .error (.noJson []) ∧
    ExtractErr.noJson [] ≠ ExtractErr.emptyContent := by
  exact ⟨rfl, fun h => ExtractErr.noConfusion h⟩

/-- C7 (amended): the empty input fails immediately with the empty-content
`AISummaryError` before any parse attempt; an all-whitespace input also
fails with an `AISummaryError` — the final no-JSON error after all four
strategies fail — and in neither case is an unrelated parsing exception
propagated (every internal `json.loads` failure is caught, modelled by
`jsonLoads` returning `none` and the extractor being a total function
into `Except`). -/
theorem c7_empty_input_amended (cs : List Char) (hne : cs ≠ [])
    (hws : ∀ c ∈ cs, isPyWs c = true) :
    extractJsonFromContent [] = .error .emptyContent ∧
    extractJsonFromContent cs = .error (.noJson []) := by
  constructor
  · rfl
  · simp only [extractJsonFromContent]
    rw [if_neg hne, pyStrip_all_ws hws]
    rfl

/-- C7 witness: the amended statement at the concrete input `" "`. -/
theorem c7_empty_input_witness :
    extractJsonFromContent [] = .error .emptyContent ∧
    extractJsonFromContent [' '] = .error (.noJson []) :=
  c7_empty_input_amended [' '] (by simp) (by decide)

/-! ## Report generator embedding (src/report_generator.py, src/main.py,
src/config.py, src/message_handler.py) -/

/-- Python truthiness of an optional string (`None` and `""` are falsy). -/
def pyTruthyStr : Option (List Char) → Bool
  | some s => !s.isEmpty
  | none => false

/-- Python truthiness of an optional integer (`None` and `0` are falsy). -/
def pyTruthyInt : Option Int → Bool
  | some n => !(n = 0 : Bool)
  | none => false

/-- A row of the `messages` table as consumed by the report generator. -/
structure Row where
  message_id : Int
  user_id : Option Int
  username : Option (List Char)
  text : Option (List Char)
  media_type : Option (List Char)
  reply_to : Option Int
  date : List Char
  thread_id : Int

/-- `format_user` from src/message_handler.py: prefer `@username`, fall
back to `user_{id}`, then `"unknown"` (Python truthiness on both). -/
def formatUser (uid : Option Int) (uname : Option (List Char)) : List Char :=
  if pyTruthyStr uname then '@' :: (uname.getD [])
  else if pyTruthyInt uid then "user_".data ++ intChars (uid.getD 0)
  else "unknown".data

/-- The `replied_message` sub-dictionary built by
`_convert_rows_to_messages`. -/
structure RepliedMsg where
  id : Int
  user : List Char
  text : List Char
  media_type : Option (List Char)
  ts : List Char

/-- One message dictionary of the AI payload. -/
structure ConvMsg where
  id : Int
  user : List Char
  ts : List Char
  text : List Char
  media_type : Option (List Char)
  reply_to : Option Int
  replied_message : Option RepliedMsg

/-- `_convert_rows_to_messages` on a single row, against the store lookup
`get_replied_message`: a reply whose target is missing is dropped
(`none`), a reply whose target is present carries the replied info, and a
non-reply is passed through. -/
def convertRowToMessage (store : Int → Option Row) (r : Row) : Option ConvMsg :=
  let base : ConvMsg :=
    { id := r.message_id, user := formatUser r.user_id r.username, ts := r.date,
      text := r.text.getD [], media_type := r.media_type, reply_to := r.reply_to,
      replied_message := none }
  if pyTruthyInt r.reply_to then
    match store (r.reply_to.getD 0) with
    | some rm =>
      let rep : RepliedMsg :=
        { id := rm.message_id, user := formatUser rm.user_id rm.username,
          text := rm.text.getD [], media_type := rm.media_type, ts := rm.date }
      some { base with replied_message := some rep }
    | none => none
  else some base

/-- `_convert_rows_to_messages` over a row list. -/
def convertRowsToMessages (store : Int → Option Row) (rows : List Row) : List ConvMsg :=
  rows.filterMap (convertRowToMessage store)

/-- One category of a structured AI result (`{name, summary, messages}`). -/
structure Category where
  name : List Char
  summary : List Char
  messages : List Int

/-- The structured result of one summarization call
(`{overall, categories}`; a missing/empty `overall` is `[]`). -/
structure StructuredResult where
  overall : List Char
  categories : List Category

/-- A summarization failure (`AISummaryError`), carrying `str(exc)`. -/
structure AIErr where
  msg : List Char

/-- The merged per-name data of `_merge_categories`. -/
structure MergedCat where
  message_ids : List Int
  summaries : List (List Char)

instance : Inhabited MergedCat := ⟨⟨[], []⟩⟩

instance : Inhabited Category := ⟨⟨[], [], []⟩⟩

/-- Insertion-ordered dictionary update: apply `f` to the value of the
first entry with key `k`, or append `(k, f d)` (Python dict semantics). -/
def upsertApp {α β : Type} [DecidableEq α] (m : List (α × β)) (k : α) (f : β → β)
    (d : β) : List (α × β) :=
  match m with
  | [] => [(k, f d)]
  | (k', v) :: rest =>
    if k' = k then (k', f v) :: rest else (k', v) :: upsertApp rest k f d

/-- `cat.get("name") or "未命名分类"`: empty/missing names get the
default. -/
def displayName (c : Category) : List Char :=
  if c.name = [] then "未命名分类".data else c.name

/-- One step of `_merge_categories`: append the (nonempty) summary and
extend the id list of the category's entry. -/
def addCat (m : List (List Char × MergedCat)) (c : Category) :
    List (List Char × MergedCat) :=
  upsertApp m (displayName c)
    (fun mc =>
      { message_ids := mc.message_ids ++ c.messages,
        summaries := mc.summaries ++ (if c.summary = [] then [] else [c.summary]) })
    ⟨[], []⟩

/-- `dict.fromkeys`-style deduplication keeping the first occurrence. -/
def dedupFirstAux {α : Type} [DecidableEq α] : List α → List α → List α
  | _, [] => []
  | seen, x :: xs =>
    if x ∈ seen then dedupFirstAux seen xs else x :: dedupFirstAux (x :: seen) xs

/-- Order-preserving first-occurrence deduplication
(`list(dict.fromkeys(...))`). -/
def dedupFirst {α : Type} [DecidableEq α] (l : List α) : List α :=
  dedupFirstAux [] l

/-- `_merge_categories`: fold categories into an insertion-ordered map and
deduplicate each entry's message ids. -/
def mergeCategories (cats : List Category) : List (List Char × MergedCat) :=
  (cats.foldl addCat []).map
    (fun p => (p.1, (⟨dedupFirst p.2.message_ids, p.2.summaries⟩ : MergedCat)))

/-- Modelled from the spec: `constants.py` is missing from src/.  §4.5
fixes a priority table over the five canonical category names (the names
the ai_client prompt instructs the model to use), with unknown names
ranked after all known ones. -/
def CATEGORY_PRIORITY : List (List Char × Nat) :=
  [("关键事件".data, 1), ("技术更新/开发者动态".data, 2), ("潜在风险&预警".data, 3),
   ("市场/社区情绪".data, 4), ("需要关注的后续行动".data, 5)]

/-- Modelled from the spec: the default rank placing unrecognized names
after all known names. -/
def DEFAULT_CATEGORY_PRIORITY : Nat := 999

/-- `CATEGORY_PRIORITY.get(name, DEFAULT_CATEGORY_PRIORITY)`. -/
def getPriority (n : List Char) : Nat :=
  (CATEGORY_PRIORITY.lookup n).getD DEFAULT_CATEGORY_PRIORITY

/-- `_sort_categories_by_priority`: stable sort by priority rank. -/
def sortCategoriesByPriority (cats : List Category) : List Category :=
  cats.mergeSort (fun a b => getPriority (a.name) ≤ getPriority (b.name))

/-- The combined summary of lines 432-442 of `_format_category_output`:
join with `" | "` when batching and more than one summary, else the first
summary verbatim. -/
def combinedSummary (isBatch : Bool) (summaries : List (List Char)) : List Char :=
  if isBatch && decide (1 < summaries.length) then
    List.intercalate " | ".data summaries
  else summaries.headD []

/-- Message details available to the renderer (`message_map`). -/
structure MsgInfo where
  text : List Char
  user_id : Option Int
  username : Option (List Char)

/-- Escape `]` and `)` in a link text
(`replace("]", "\\]").replace(")", "\\)")`). -/
def escapeMd (s : List Char) : List Char :=
  (s.map (fun c =>
    if c = ']' then [bslash, ']'] else if c = ')' then [bslash, ')'] else [c])).flatten

/-- `text[:50] + ("..." if len(text) > 50 else "")`. -/
def truncate50 (t : List Char) : List Char :=
  t.take 50 ++ (if 50 < t.length then "...".data else [])

/-- The preview text paired with a referenced message id (lines 445-460):
empty when the map is Python-falsy or the id is unknown, the placeholder
for empty bodies, else the escaped truncation of the stripped body. -/
def refDisplay (mmap : List (Int × MsgInfo)) (mid : Int) : List Char :=
  match (if mmap.isEmpty then none else mmap.lookup mid) with
  | some info =>
    if (pyStrip info.text).isEmpty then "[媒体消息]".data
    else escapeMd (truncate50 (pyStrip info.text))
  | none => []

/-- First-occurrence deduplication of `(id, preview)` pairs keyed on the
id (`seen_ids` loop of lines 466-472). -/
def dedupRefsAux : List Int → List (Int × List Char) → List (Int × List Char)
  | _, [] => []
  | seen, (mid, d) :: rest =>
    if mid ∈ seen then dedupRefsAux seen rest
    else (mid, d) :: dedupRefsAux (mid :: seen) rest

/-- One numbered reference line (lines 475-486), clickable exactly when a
chat link is available (Python truthiness). -/
def refLine (chatLink : Option (List Char)) (idx : Nat) (mid : Int)
    (disp : List Char) : List Char :=
  if pyTruthyStr chatLink then
    if disp.isEmpty then
      "      ".data ++ natDigits idx ++ ". [".data ++ intChars mid ++ "](".data ++
        chatLink.getD [] ++ "/".data ++ intChars mid ++ ")".data
    else
      "      ".data ++ natDigits idx ++ ". [".data ++ intChars mid ++ "：".data ++
        disp ++ "](".data ++ chatLink.getD [] ++ "/".data ++ intChars mid ++ ")".data
  else
    if disp.isEmpty then "      ".data ++ natDigits idx ++ ". ".data ++ intChars mid
    else
      "      ".data ++ natDigits idx ++ ". ".data ++ intChars mid ++ "：".data ++ disp

/-- The per-category block of `_format_category_output`: the bold name
line and the filtered indented summary lines. -/
def categoryBlock (isBatch : Bool) (n : List Char) (mc : MergedCat) : List (List Char) :=
  ("    - **".data ++ n ++ "**".data) ::
    (if mc.summaries.isEmpty then []
     else ((combinedSummary isBatch mc.summaries).splitOn '\n').filterMap
       (fun line =>
         if (pyStrip line).isEmpty then none else some ("      ".data ++ line)))

/-- The `(id, preview)` pairs collected across all categories in priority
order (lines 444-460). -/
def collectedRefs (cmap : List (List Char × MergedCat)) (mmap : List (Int × MsgInfo)) :
    List (Int × List Char) :=
  ((cmap.map Prod.fst).mergeSort (fun a b => getPriority a ≤ getPriority b)).flatMap
    (fun n => ((cmap.lookup n).getD ⟨[], []⟩).message_ids.map
      (fun mid => (mid, refDisplay mmap mid)))

/-- `_format_category_output` (lines 394-488). -/
def formatCategoryOutput (cmap : List (List Char × MergedCat)) (isBatch : Bool)
    (chatLink : Option (List Char)) (mmap : List (Int × MsgInfo)) : List (List Char) :=
  let sortedNames :=
    (cmap.map Prod.fst).mergeSort (fun a b => getPriority a ≤ getPriority b)
  let sectionTitle :=
    if isBatch then "  - 分类详情（合并所有批次）：".data else "  - 分类详情：".data
  let catLines := sortedNames.flatMap
    (fun n => categoryBlock isBatch n ((cmap.lookup n).getD ⟨[], []⟩))
  let refs := collectedRefs cmap mmap
  let refLines :=
    if refs.isEmpty then []
    else
      "    - **原始引用：**".data :: ([] : List Char) ::
        ((dedupRefsAux [] refs).enum.map
          (fun p => refLine chatLink (p.1 + 1) p.2.1 p.2.2))
  sectionTitle :: catLines ++ refLines

/-- `num_batches = (total + batch - 1) // batch` (line 590). -/
def numBatches (total B : Nat) : Nat := (total + B - 1) / B

/-- The batch planner of `_process_thread_batch` (lines 602-605): the
`i`-th batch is the slice `thread_rows[i*B : min((i+1)*B, total)]`. -/
def planBatches {α : Type} (rows : List α) (B : Nat) : List (List α) :=
  (List.range (numBatches rows.length B)).map (fun i => (rows.drop (i * B)).take B)

/-- The dispatch of `build_ai_summary_section` line 731: the batching path
is taken exactly when `total_messages > cfg.ai_max_messages_per_batch`. -/
def usesBatchPath (total B : Nat) : Bool := B < total

/-- `f"    - AI 摘要生成失败：{exc}"` (line 635). -/
def failLine (e : AIErr) : List Char := "    - AI 摘要生成失败：".data ++ e.msg

/-- `f"批次 {batch_num}: {batch_overall}"` (line 643). -/
def labeledOverall (batchNum : Nat) (overall : List Char) : List Char :=
  "批次 ".data ++ natDigits batchNum ++ ": ".data ++ overall

/-- The running state of the batch loop of `_process_thread_batch`. -/
structure BatchAcc where
  lines : List (List Char)
  overalls : List (List Char)
  categories : List Category
  batch_failed : Bool

/-- One iteration of the batch loop (lines 630-647) on the indexed
outcome of this batch's single summarization attempt. -/
def stepBatch (acc : BatchAcc) (p : Nat × Except AIErr StructuredResult) : BatchAcc :=
  match p.2 with
  | .error e =>
    { acc with lines := acc.lines ++ [failLine e, []], batch_failed := true }
  | .ok d =>
    { acc with
      overalls := acc.overalls ++
        (if d.overall.isEmpty then [] else [labeledOverall (p.1 + 1) d.overall]),
      categories := acc.categories ++ d.categories }

/-- The batch loop over all per-batch outcomes. -/
def collectBatches (outcomes : List (Except AIErr StructuredResult)) : BatchAcc :=
  outcomes.enum.foldl stepBatch ⟨[], [], [], false⟩

/-- The header of the batching path (line 592). -/
def batchHeaderLine (nB B : Nat) : List Char :=
  "  - 消息数量较多，将分成 ".data ++ natDigits nB ++
    " 个批次处理（每批最多 ".data ++ natDigits B ++ " 条）".data

/-- `"  - 所有批次处理失败"` (line 651). -/
def allFailedLine : List Char := "  - 所有批次处理失败".data

/-- `"  - 总览（各批次摘要）："` (line 654). -/
def overallHeaderLine : List Char := "  - 总览（各批次摘要）：".data

/-- The rendered lines of `_process_thread_batch` (lines 588-663) given
the per-batch outcomes, one outcome per planned batch. -/
def processThreadBatchLines (B total : Nat)
    (outcomes : List (Except AIErr StructuredResult))
    (chatLink : Option (List Char)) (mmap : List (Int × MsgInfo)) :
    List (List Char) :=
  let acc := collectBatches outcomes
  [batchHeaderLine (numBatches total B) B, []] ++ acc.lines ++
    (if acc.batch_failed && acc.overalls.isEmpty && acc.categories.isEmpty then
      [allFailedLine]
    else
      (if acc.overalls.isEmpty then []
       else overallHeaderLine :: acc.overalls.map (fun o => "    - ".data ++ o)) ++
      (if acc.categories.isEmpty then []
       else ([] : List Char) ::
         formatCategoryOutput (mergeCategories acc.categories) true chatLink mmap))

/-- `_process_thread_batch`: one summarization attempt per planned batch,
indexed by batch position. -/
def processThreadBatch (threadRows : List Row) (B : Nat)
    (call : Nat → Except AIErr StructuredResult)
    (chatLink : Option (List Char)) (mmap : List (Int × MsgInfo)) :
    List (List Char) :=
  processThreadBatchLines B threadRows.length
    ((List.range (numBatches threadRows.length B)).map call) chatLink mmap

/-- The rendered lines of `_process_single_thread` (lines 534-555). -/
def singleThreadLines (result : Except AIErr StructuredResult)
    (chatLink : Option (List Char)) (mmap : List (Int × MsgInfo)) :
    List (List Char) :=
  match result with
  | .error e => ["  - AI 摘要生成失败：".data ++ e.msg]
  | .ok d =>
    (if d.overall.isEmpty then [] else ["  - 总览：".data ++ d.overall]) ++
    (if d.categories.isEmpty then ["  - 未返回分类结果。".data]
     else formatCategoryOutput
       (mergeCategories (sortCategoriesByPriority d.categories)) false chatLink mmap)

/-- The AI-relevant configuration fields of `Config` (src/config.py). -/
structure Cfg where
  enable_ai_summary : Bool
  ai_api_base : List Char
  ai_api_key : List Char
  ai_max_messages_per_batch : Nat

/-- The sentinel thread id for top-level messages (src/main.py lines
96, 113: `thread_id = -1` when `reply_to` is NULL). -/
def TOP_THREAD_ID : Int := -1

/-- `_group_messages_by_thread` (lines 224-240): insertion-ordered
grouping by `thread_id`. -/
def threadGroups (rows : List Row) : List (Int × List Row) :=
  rows.foldl (fun m r => upsertApp m r.thread_id (fun l => l ++ [r]) []) []

/-- The thread filter of line 704: keep threads with at least `thr`
messages. -/
def validThreads (thr : Nat) (rows : List Row) : List (Int × List Row) :=
  (threadGroups rows).filter (fun g => thr ≤ g.2.length)

/-- `sorted(valid_threads.items(), key=lambda x: len(x[1]), reverse=True)`
(line 725): stable descending by message count. -/
def sortThreadsDesc (gs : List (Int × List Row)) : List (Int × List Row) :=
  gs.mergeSort (fun a b => b.2.length ≤ a.2.length)

/-- The threshold selection of line 698: the per-chat
`min_thread_messages` when set, else the global default. -/
def thresholdUsed (minThread : Option Nat) (dflt : Nat) : Nat := minThread.getD dflt

/-- The `min_thread_messages` parsing of `ChatConfig` (src/config.py
lines 35-42): values below 1 fall back to unset. -/
def chatMinThreadMessages (raw : Option Int) : Option Nat :=
  match raw with
  | some v => if v < 1 then none else some v.toNat
  | none => none

/-- `f"### 线程 {tid}（{n} 条消息）"` resp. the top-level header
(lines 726-728). -/
def threadHeaderLine (tid : Int) (n : Nat) : List Char :=
  if tid = TOP_THREAD_ID then "### 顶层消息（".data ++ natDigits n ++ " 条消息）".data
  else "### 线程 ".data ++ intChars tid ++ "（".data ++ natDigits n ++ " 条消息）".data

/-- `f"- 没有符合条件的线程（消息数量 >= {threshold}）。"` (line 707). -/
def noThreadsLine (thr : Nat) : List Char :=
  "- 没有符合条件的线程（消息数量 >= ".data ++ natDigits thr ++ "）。".data

/-- `f"- 共 {n} 个线程符合分析条件（消息数量 >= {threshold}）"` (line 710). -/
def threadCountLine (n thr : Nat) : List Char :=
  "- 共 ".data ++ natDigits n ++ " 个线程符合分析条件（消息数量 >= ".data ++
    natDigits thr ++ "）".data

/-- The per-thread section of lines 725-743: header, then the batching or
single-call path, then a blank line. -/
def threadSection (cfg : Cfg) (call : Int → Nat → Except AIErr StructuredResult)
    (chatLink : Option (List Char)) (mmap : List (Int × MsgInfo))
    (g : Int × List Row) : List (List Char) :=
  threadHeaderLine g.1 g.2.length ::
    ((if usesBatchPath g.2.length cfg.ai_max_messages_per_batch then
        processThreadBatch g.2 cfg.ai_max_messages_per_batch (call g.1) chatLink mmap
      else singleThreadLines (call g.1 0) chatLink mmap) ++ [([] : List Char)])

/-- `build_ai_summary_section` (src/report_generator.py lines 666-745),
with the summarization call abstracted as an oracle from thread id and
batch index to the outcome of that single attempt. -/
def buildAiSummarySection (cfg : Cfg) (hasConn : Bool) (minThread : Option Nat)
    (dflt : Nat) (rows : List Row)
    (call : Int → Nat → Except AIErr StructuredResult)
    (chatLink : Option (List Char)) (mmap : List (Int × MsgInfo)) :
    List (List Char) :=
  if !cfg.enable_ai_summary then []
  else if cfg.ai_api_base.isEmpty then
    [[], "## AI 线程摘要".data, "- AI 摘要未生成：缺少 ai_api_base 配置。".data]
  else if cfg.ai_api_key.isEmpty then
    [[], "## AI 线程摘要".data, "- AI 摘要未生成：缺少 ai_api_key 配置。".data]
  else if !hasConn then
    [[], "## AI 线程摘要".data, "- AI 摘要未生成：缺少数据库连接。".data]
  else
    let thr := thresholdUsed minThread dflt
    let valid := validThreads thr rows
    if valid.isEmpty then
      [[], "## AI 线程摘要".data, noThreadsLine thr]
    else
      [[], "## AI 线程摘要".data, threadCountLine valid.length thr, []] ++
        (sortThreadsDesc valid).flatMap (threadSection cfg call chatLink mmap)

/-- The legacy thread filter of src/main.py lines 374-375: the minimum
thread size is the literal `10`. -/
def legacyValidThreads (rows : List Row) : List (Int × List Row) :=
  (threadGroups rows).filter (fun g => 10 ≤ g.2.length)

lemma numBatches_zero (B : Nat) : numBatches 0 B = 0 := by
  unfold numBatches
  rcases Nat.eq_zero_or_pos B with h | h
  · subst h; rfl
  · exact Nat.div_eq_of_lt (by omega)

lemma numBatches_pos_eq (L B : Nat) (hB : 0 < B) (hL : 0 < L) :
    numBatches L B = (L - 1) / B + 1 := by
  unfold numBatches
  rw [show L + B - 1 = (L - 1) + B by omega]
  exact Nat.add_div_right _ hB

lemma numBatches_sub (L B : Nat) (hB : 0 < B) (hL : 0 < L) :
    numBatches (L - B) B = (L - 1) / B := by
  rcases le_or_lt L B with h | h
  · rw [show L - B = 0 by omega, numBatches_zero]
    exact (Nat.div_eq_of_lt (by omega)).symm
  · rw [numBatches_pos_eq (L - B) B hB (by omega)]
    rw [show L - 1 = L - B - 1 + B by omega, Nat.add_div_right _ hB]

lemma planBatches_nil {α : Type} (B : Nat) : planBatches ([] : List α) B = [] := by
  simp [planBatches, numBatches_zero]

lemma planBatches_cons {α : Type} (rows : List α) (B : Nat) (hB : 0 < B)
    (h : rows ≠ []) :
    planBatches rows B = rows.take B :: planBatches (rows.drop B) B := by
  have hL : 0 < rows.length := List.length_pos.mpr h
  unfold planBatches
  rw [numBatches_pos_eq _ _ hB hL, List.range_succ_eq_map, List.map_cons,
    List.length_drop, numBatches_sub _ _ hB hL, List.map_map]
  simp only [Nat.zero_mul, List.drop_zero]
  congr 1
  apply List.map_congr_left
  intro i _
  simp only [Function.comp_apply]
  rw [List.drop_drop, Nat.succ_mul, Nat.add_comm]

lemma planBatches_flatten_le {α : Type} (B : Nat) (hB : 0 < B) :
    ∀ (n : Nat) (rows : List α), rows.length ≤ n →
      (planBatches rows B).flatten = rows := by
  intro n
  induction n with
  | zero =>
    intro rows h
    have : rows = [] := List.eq_nil_of_length_eq_zero (by omega)
    subst this
    rw [planBatches_nil]
    rfl
  | succ n ih =>
    intro rows h
    rcases eq_or_ne rows [] with rfl | hne
    · rw [planBatches_nil]; rfl
    · have hL : 0 < rows.length := List.length_pos.mpr hne
      rw [planBatches_cons rows B hB hne, List.flatten_cons,
        ih (rows.drop B) (by rw [List.length_drop]; omega)]
      exact List.take_append_drop B rows

lemma planBatches_dropLast_len {α : Type} (B : Nat) (hB : 0 < B) :
    ∀ (n : Nat) (rows : List α), rows.length ≤ n →
      ∀ b ∈ (planBatches rows B).dropLast, b.length = B := by
  intro n
  induction n with
  | zero =>
    intro rows h b hb
    have : rows = [] := List.eq_nil_of_length_eq_zero (by omega)
    subst this
    rw [planBatches_nil] at hb
    simp at hb
  | succ n ih =>
    intro rows h b hb
    rcases eq_or_ne rows [] with rfl | hne
    · rw [planBatches_nil] at hb; simp at hb
    · rw [planBatches_cons rows B hB hne] at hb
      rcases eq_or_ne (rows.drop B) [] with hd | hd
      · rw [hd, planBatches_nil] at hb
        simp at hb
      · have hgt : B < rows.length := by
          have := List.length_pos.mpr hd
          rw [List.length_drop] at this
          omega
        rw [planBatches_cons (rows.drop B) B hB hd, List.dropLast_cons₂] at hb
        rcases List.mem_cons.mp hb with rfl | hb
        · rw [List.length_take]; omega
        · rw [← planBatches_cons (rows.drop B) B hB hd] at hb
          exact ih (rows.drop B) (by rw [List.length_drop]; omega) b hb

/-- C3 — Batch planner of `_process_thread_batch`: for every message list
and positive batch size, the planned batches concatenate back to the
original list in order, the batch count is the code's
`(total + B - 1) // B` which is exactly the ceiling of `total / B`,
every batch except possibly the last has length exactly `B`, every batch
has length at most `B`, and a thread of at most `B` messages is
dispatched to the single-call path (`usesBatchPath` false, the plan is
the one whole batch, and the rendered thread section uses
`singleThreadLines` with no batch labeling). -/
theorem c3_batch_planner {α : Type} (rows : List α) (B : Nat) (hB : 0 < B) :
    (planBatches rows B).flatten = rows ∧
    (planBatches rows B).length = numBatches rows.length B ∧
    rows.length ≤ numBatches rows.length B * B ∧
    (rows ≠ [] → (numBatches rows.length B - 1) * B < rows.length) ∧
    (∀ b ∈ (planBatches rows B).dropLast, b.length = B) ∧
    (∀ b ∈ planBatches rows B, b.length ≤ B) ∧
    (rows.length ≤ B → usesBatchPath rows.length B = false ∧
      (rows ≠ [] → planBatches rows B = [rows])) ∧
    (∀ (cfg : Cfg) (call : Int → Nat → Except AIErr StructuredResult)
       (link : Option (List Char)) (mmap : List (Int × MsgInfo)) (tid : Int)
       (trows : List Row), trows.length ≤ cfg.ai_max_messages_per_batch →
       threadSection cfg call link mmap (tid, trows) =
         threadHeaderLine tid trows.length ::
           (singleThreadLines (call tid 0) link mmap ++ [([] : List Char)])) := by
  refine ⟨planBatches_flatten_le B hB rows.length rows le_rfl, ?_, ?_, ?_,
    planBatches_dropLast_len B hB rows.length rows le_rfl, ?_, ?_, ?_⟩
  · simp [planBatches]
  · rcases Nat.eq_zero_or_pos rows.length with h0 | hL
    · rw [h0, numBatches_zero]
      simp
    · rw [numBatches_pos_eq _ _ hB hL, Nat.succ_mul, Nat.mul_comm]
      have h1 := Nat.div_add_mod (rows.length - 1) B
      have h2 : (rows.length - 1) % B < B := Nat.mod_lt _ hB
      omega
  · intro hne
    have hL : 0 < rows.length := List.length_pos.mpr hne
    rw [numBatches_pos_eq _ _ hB hL]
    simp only [Nat.add_sub_cancel]
    have := Nat.div_mul_le_self (rows.length - 1) B
    omega
  · intro b hb
    rcases List.mem_map.mp hb with ⟨i, _, rfl⟩
    rw [List.length_take]
    omega
  · intro hle
    have h1 : usesBatchPath rows.length B = false := by
      simp [usesBatchPath]
      omega
    refine ⟨h1, fun hne => ?_⟩
    rw [planBatches_cons rows B hB hne,
      List.take_of_length_le hle,
      List.drop_eq_nil_of_le hle, planBatches_nil]
  · intro cfg call link mmap tid trows hle
    have h1 : usesBatchPath trows.length cfg.ai_max_messages_per_batch = false := by
      simp [usesBatchPath]
      omega
    simp [threadSection, h1]

/-- Witness for C3 at the five-element list `[0, 1, 2, 3, 4]` with batch
size `2`: batches `[[0,1],[2,3],[4]]`. -/
theorem c3_batch_planner_witness :
    0 < 2 ∧
    ((planBatches ([0, 1, 2, 3, 4] : List Nat) 2).flatten = [0, 1, 2, 3, 4] ∧
    (planBatches ([0, 1, 2, 3, 4] : List Nat) 2).length =
      numBatches ([0, 1, 2, 3, 4] : List Nat).length 2 ∧
    ([0, 1, 2, 3, 4] : List Nat).length ≤
      numBatches ([0, 1, 2, 3, 4] : List Nat).length 2 * 2 ∧
    (([0, 1, 2, 3, 4] : List Nat) ≠ [] →
      (numBatches ([0, 1, 2, 3, 4] : List Nat).length 2 - 1) * 2 <
        ([0, 1, 2, 3, 4] : List Nat).length) ∧
    (∀ b ∈ (planBatches ([0, 1, 2, 3, 4] : List Nat) 2).dropLast,
      b.length = 2) ∧
    (∀ b ∈ planBatches ([0, 1, 2, 3, 4] : List Nat) 2, b.length ≤ 2) ∧
    (([0, 1, 2, 3, 4] : List Nat).length ≤ 2 →
      usesBatchPath ([0, 1, 2, 3, 4] : List Nat).length 2 = false ∧
      (([0, 1, 2, 3, 4] : List Nat) ≠ [] →
        planBatches ([0, 1, 2, 3, 4] : List Nat) 2 = [[0, 1, 2, 3, 4]])) ∧
    (∀ (cfg : Cfg) (call : Int → Nat → Except AIErr StructuredResult)
       (link : Option (List Char)) (mmap : List (Int × MsgInfo)) (tid : Int)
       (trows : List Row), trows.length ≤ cfg.ai_max_messages_per_batch →
       threadSection cfg call link mmap (tid, trows) =
         threadHeaderLine tid trows.length ::
           (singleThreadLines (call tid 0) link mmap ++ [([] : List Char)]))) :=
  ⟨by decide, c3_batch_planner ([0, 1, 2, 3, 4] : List Nat) 2 (by decide)⟩

/-- The categories a single batch outcome contributes to the merge input:
none on failure. -/
def okCats : Except AIErr StructuredResult → List Category
  | .ok d => d.categories
  | .error _ => []

/-- The lines a single batch outcome contributes to the failure log: the
failure line and a blank on failure, none on success. -/
def errLines : Except AIErr StructuredResult → List (List Char)
  | .error e => [failLine e, []]
  | .ok _ => []

/-- The labeled overall a single indexed outcome contributes. -/
def okOverall (p : Nat × Except AIErr StructuredResult) : List (List Char) :=
  match p.2 with
  | .ok d => if d.overall.isEmpty then [] else [labeledOverall (p.1 + 1) d.overall]
  | .error _ => []

/-- Whether an outcome is a failure. -/
def isErr : Except AIErr StructuredResult → Bool
  | .error _ => true
  | .ok _ => false

lemma foldl_stepBatch (ps : List (Nat × Except AIErr StructuredResult)) :
    ∀ acc, ps.foldl stepBatch acc =
      ⟨acc.lines ++ ps.flatMap (fun p => errLines p.2),
       acc.overalls ++ ps.flatMap okOverall,
       acc.categories ++ ps.flatMap (fun p => okCats p.2),
       acc.batch_failed || ps.any (fun p => isErr p.2)⟩ := by
  induction ps with
  | nil => intro acc; simp
  | cons p ps ih =>
    intro acc
    rw [List.foldl_cons, ih]
    rcases p with ⟨i, o⟩
    cases o with
    | error e =>
      simp [stepBatch, errLines, okOverall, okCats, isErr, List.append_assoc]
    | ok d =>
      simp [stepBatch, errLines, okOverall, okCats, isErr, List.append_assoc]

lemma flatMap_enumFrom_snd {β : Type}
    (f : Except AIErr StructuredResult → List β) :
    ∀ (l : List (Except AIErr StructuredResult)) (n : Nat),
      (List.enumFrom n l).flatMap (fun p => f p.2) = l.flatMap f := by
  intro l
  induction l with
  | nil => intro n; rfl
  | cons o l ih => intro n; simp [List.enumFrom, ih]

lemma any_enumFrom_snd (f : Except AIErr StructuredResult → Bool) :
    ∀ (l : List (Except AIErr StructuredResult)) (n : Nat),
      (List.enumFrom n l).any (fun p => f p.2) = l.any f := by
  intro l
  induction l with
  | nil => intro n; rfl
  | cons o l ih => intro n; simp [List.enumFrom, ih]

lemma collectBatches_eq (outcomes : List (Except AIErr StructuredResult)) :
    collectBatches outcomes =
      ⟨outcomes.flatMap errLines, outcomes.enum.flatMap okOverall,
       outcomes.flatMap okCats, outcomes.any isErr⟩ := by
  unfold collectBatches List.enum
  rw [foldl_stepBatch]
  simp only [List.nil_append, Bool.false_or]
  rw [flatMap_enumFrom_snd, flatMap_enumFrom_snd, any_enumFrom_snd]

lemma flatMap_nil_of_all_nil {α β : Type} (f : α → List β) (l : List α)
    (h : ∀ x ∈ l, f x = []) : l.flatMap f = [] := by
  induction l with
  | nil => rfl
  | cons x l ih =>
    rw [List.flatMap_cons, h x (List.mem_cons_self x l),
      ih (fun y hy => h y (List.mem_cons_of_mem x hy))]
    rfl

lemma enumFrom_all_err_overall (l : List (Except AIErr StructuredResult))
    (h : ∀ o ∈ l, isErr o = true) :
    ∀ n, (List.enumFrom n l).flatMap okOverall = [] := by
  induction l with
  | nil => intro n; rfl
  | cons o l ih =>
    intro n
    have ho := h o (List.mem_cons_self o l)
    simp only [List.enumFrom, List.flatMap_cons]
    rw [ih (fun y hy => h y (List.mem_cons_of_mem o hy))]
    cases o with
    | error e => rfl
    | ok d => exact absurd ho (by simp [isErr])

lemma batchHeaderLine_ne_allFailed (nB B : Nat) :
    batchHeaderLine nB B ≠ allFailedLine := by
  intro h
  have h4 : (batchHeaderLine nB B)[4]? = allFailedLine[4]? := by rw [h]
  unfold batchHeaderLine at h4
  simp only [List.append_assoc] at h4
  rw [List.getElem?_append_left (by decide)] at h4
  exact absurd h4 (by decide)

/-- C4 — Batch failure isolation and the all-failed state in
`_process_thread_batch`: the batching path makes exactly one
summarization attempt per planned batch (the outcome list is the oracle
applied once to each batch index, no retry); the merge input is exactly
the concatenated categories of the successful batches (failed batches
are excluded while the others still contribute); each failed batch is
recorded as exactly its failure line (successes record none); if every
batch failed the thread section ends in the explicit all-failed marker
line; and an all-successful run with empty results renders with no
all-failed marker — the two states are distinguishable. -/
theorem c4_batch_failure_isolation
    (outcomes : List (Except AIErr StructuredResult)) (B total : Nat)
    (link : Option (List Char)) (mmap : List (Int × MsgInfo)) :
    (∀ (rows : List Row) (call : Nat → Except AIErr StructuredResult),
      processThreadBatch rows B call link mmap =
        processThreadBatchLines B rows.length
          ((List.range (numBatches rows.length B)).map call) link mmap) ∧
    (collectBatches outcomes).categories = outcomes.flatMap okCats ∧
    (collectBatches outcomes).lines = outcomes.flatMap errLines ∧
    (outcomes ≠ [] → (∀ o ∈ outcomes, isErr o = true) →
      processThreadBatchLines B total outcomes link mmap =
        [batchHeaderLine (numBatches total B) B, []] ++
          outcomes.flatMap errLines ++ [allFailedLine]) ∧
    ((∀ o ∈ outcomes, isErr o = false) →
      (collectBatches outcomes).overalls = [] →
      (collectBatches outcomes).categories = [] →
      processThreadBatchLines B total outcomes link mmap =
        [batchHeaderLine (numBatches total B) B, []] ∧
      allFailedLine ∉ processThreadBatchLines B total outcomes link mmap) := by
  refine ⟨fun rows call => rfl, by rw [collectBatches_eq], by rw [collectBatches_eq],
    ?_, ?_⟩
  · intro hne hall
    have hov : outcomes.enum.flatMap okOverall = [] := by
      unfold List.enum
      exact enumFrom_all_err_overall outcomes hall 0
    have hcat : outcomes.flatMap okCats = [] :=
      flatMap_nil_of_all_nil _ _ (fun o ho => by
        cases o with
        | error e => rfl
        | ok d => exact absurd (hall _ ho) (by simp [isErr]))
    have hany : outcomes.any isErr = true := by
      rcases outcomes with _ | ⟨o, os⟩
      · exact absurd rfl hne
      · simp [List.any_cons, hall o (List.mem_cons_self o os)]
    simp [processThreadBatchLines, collectBatches_eq, hov, hcat, hany]
  · intro hok hov hcat
    rw [collectBatches_eq] at hov hcat
    have hlines : outcomes.flatMap errLines = [] :=
      flatMap_nil_of_all_nil _ _ (fun o ho => by
        cases o with
        | error e => exact absurd (hok _ ho) (by simp [isErr])
        | ok d => rfl)
    have hbf : outcomes.any isErr = false := by
      simp only [List.any_eq_false]
      intro o ho
      simp [hok o ho]
    have heq : processThreadBatchLines B total outcomes link mmap =
        [batchHeaderLine (numBatches total B) B, []] := by
      simp [processThreadBatchLines, collectBatches_eq, hov, hcat, hlines, hbf]
    refine ⟨heq, ?_⟩
    rw [heq]
    intro hmem
    rcases List.mem_cons.mp hmem with h | h
    · exact batchHeaderLine_ne_allFailed _ _ h.symm
    · rcases List.mem_cons.mp h with h | h
      · exact absurd h (by decide)
      · simp at h

/-- Witness for C4: with two failed batches (messages `x`, `y`) out of a
three-message thread at batch size two, the rendered section is the
header, both failure lines with blanks, and the all-failed marker. -/
theorem c4_batch_failure_isolation_witness :
    (([Except.error ⟨"x".data⟩, Except.error ⟨"y".data⟩] :
        List (Except AIErr StructuredResult)) ≠ [] ∧
      ∀ o ∈ ([Except.error ⟨"x".data⟩, Except.error ⟨"y".data⟩] :
        List (Except AIErr StructuredResult)), isErr o = true) ∧
    processThreadBatchLines 2 3
        [Except.error ⟨"x".data⟩, Except.error ⟨"y".data⟩] none [] =
      [batchHeaderLine (numBatches 3 2) 2, []] ++
        ([Except.error ⟨"x".data⟩, Except.error ⟨"y".data⟩] :
          List (Except AIErr StructuredResult)).flatMap errLines ++
        [allFailedLine] := by
  refine ⟨⟨List.cons_ne_nil _ _, ?_⟩, ?_⟩
  · intro o ho
    fin_cases ho <;> rfl
  · exact (c4_batch_failure_isolation
      [Except.error ⟨"x".data⟩, Except.error ⟨"y".data⟩] 2 3 none []).2.2.2.1
      (List.cons_ne_nil _ _) (fun o ho => by fin_cases ho <;> rfl)

/-- The message ids contributed to group `n`, concatenated in the order
seen across the input categories. -/
def gatherIds (n : List Char) (cats : List Category) : List Int :=
  (cats.filter (fun c => decide (displayName c = n))).flatMap (fun c => c.messages)

/-- The (nonempty) summaries contributed to group `n`, in order. -/
def gatherSums (n : List Char) (cats : List Category) : List (List Char) :=
  (cats.filter (fun c => decide (displayName c = n))).flatMap
    (fun c => if c.summary = [] then [] else [c.summary])

/-- Whether some input category belongs to group `n`. -/
def hasName (n : List Char) (cats : List Category) : Bool :=
  cats.any (fun c => decide (displayName c = n))

lemma upsertApp_lookup {α β : Type} [DecidableEq α] [BEq α] [LawfulBEq α]
    (m : List (α × β)) (k n : α) (f : β → β) (d : β) :
    (upsertApp m k f d).lookup n =
      if n = k then some (f ((m.lookup k).getD d)) else m.lookup n := by
  induction m with
  | nil =>
    by_cases h : n = k
    · subst h
      simp [upsertApp, List.lookup]
    · have hb : (n == k) = false := by simp [h]
      simp [upsertApp, List.lookup, h, hb]
  | cons p rest ih =>
    rcases p with ⟨q, v⟩
    by_cases hqk : q = k
    · subst hqk
      by_cases h : n = q
      · subst h
        simp [upsertApp, List.lookup]
      · have hb : (n == q) = false := by simp [h]
        simp [upsertApp, List.lookup, h, hb]
    · by_cases h : n = q
      · subst h
        have hb : (n == n) = true := by simp
        simp [upsertApp, List.lookup, hqk, Ne.symm hqk, hb]
      · have hb : (n == q) = false := by simp [h]
        have hb2 : (k == q) = false := by simp [Ne.symm hqk]
        simp [upsertApp, List.lookup, hqk, h, hb, hb2, ih]

lemma upsertApp_keys {α β : Type} [DecidableEq α]
    (m : List (α × β)) (k : α) (f : β → β) (d : β) :
    (upsertApp m k f d).map Prod.fst =
      if k ∈ m.map Prod.fst then m.map Prod.fst else m.map Prod.fst ++ [k] := by
  induction m with
  | nil => simp [upsertApp]
  | cons p rest ih =>
    rcases p with ⟨q, v⟩
    by_cases hqk : q = k
    · subst hqk
      simp [upsertApp]
    · have hk : k ∈ q :: rest.map Prod.fst ↔ k ∈ rest.map Prod.fst := by
        simp [List.mem_cons, Ne.symm hqk]
      by_cases hm : k ∈ rest.map Prod.fst
      · simp [upsertApp, hqk, ih, hm, hk]
      · simp [upsertApp, hqk, ih, hm, hk]

lemma dedupFirstAux_congr {α : Type} [DecidableEq α] :
    ∀ (l seen seen' : List α), (∀ a, a ∈ seen ↔ a ∈ seen') →
      dedupFirstAux seen l = dedupFirstAux seen' l := by
  intro l
  induction l with
  | nil => intro seen seen' h; rfl
  | cons x xs ih =>
    intro seen seen' h
    simp only [dedupFirstAux]
    by_cases hx : x ∈ seen
    · rw [if_pos hx, if_pos ((h x).mp hx), ih seen seen' h]
    · rw [if_neg hx, if_neg (fun hc => hx ((h x).mpr hc)),
        ih (x :: seen) (x :: seen') (fun a => by simp [List.mem_cons, h a])]

lemma foldl_addCat_keys :
    ∀ (cats : List Category) (m : List (List Char × MergedCat)),
      (cats.foldl addCat m).map Prod.fst =
        m.map Prod.fst ++ dedupFirstAux (m.map Prod.fst) (cats.map displayName) := by
  intro cats
  induction cats with
  | nil => intro m; simp [dedupFirstAux]
  | cons c cats ih =>
    intro m
    rw [List.foldl_cons, ih (addCat m c), List.map_cons]
    by_cases hx : displayName c ∈ m.map Prod.fst
    · simp only [addCat]
      rw [upsertApp_keys, if_pos hx]
      simp only [dedupFirstAux]
      rw [if_pos hx]
    · simp only [addCat]
      rw [upsertApp_keys, if_neg hx]
      simp only [dedupFirstAux]
      rw [if_neg hx,
        dedupFirstAux_congr (cats.map displayName)
          (m.map Prod.fst ++ [displayName c]) (displayName c :: m.map Prod.fst)
          (fun a => by simp [List.mem_append, List.mem_cons, or_comm])]
      simp [List.append_assoc]

lemma gatherIds_cons_pos (c : Category) (cats : List Category) (n : List Char)
    (h : displayName c = n) :
    gatherIds n (c :: cats) = c.messages ++ gatherIds n cats := by
  simp [gatherIds, List.filter_cons, h]

lemma gatherIds_cons_neg (c : Category) (cats : List Category) (n : List Char)
    (h : ¬displayName c = n) :
    gatherIds n (c :: cats) = gatherIds n cats := by
  simp [gatherIds, List.filter_cons, h]

lemma gatherSums_cons_pos (c : Category) (cats : List Category) (n : List Char)
    (h : displayName c = n) :
    gatherSums n (c :: cats) =
      (if c.summary = [] then [] else [c.summary]) ++ gatherSums n cats := by
  simp [gatherSums, List.filter_cons, h]

lemma gatherSums_cons_neg (c : Category) (cats : List Category) (n : List Char)
    (h : ¬displayName c = n) :
    gatherSums n (c :: cats) = gatherSums n cats := by
  simp [gatherSums, List.filter_cons, h]

lemma foldl_addCat_lookup :
    ∀ (cats : List Category) (m : List (List Char × MergedCat)) (n : List Char),
      (cats.foldl addCat m).lookup n =
        match m.lookup n with
        | some mc => some ⟨mc.message_ids ++ gatherIds n cats,
                           mc.summaries ++ gatherSums n cats⟩
        | none =>
          if hasName n cats then some ⟨gatherIds n cats, gatherSums n cats⟩
          else none := by
  intro cats
  induction cats with
  | nil =>
    intro m n
    rw [List.foldl_nil]
    rcases h : m.lookup n with _ | mc
    · simp [hasName]
    · simp [gatherIds, gatherSums]
  | cons c cats ih =>
    intro m n
    rw [List.foldl_cons, ih (addCat m c) n]
    have hup2 : List.lookup n (addCat m c) =
        if n = displayName c then
          some ⟨((m.lookup (displayName c)).getD ⟨[], []⟩).message_ids ++ c.messages,
                ((m.lookup (displayName c)).getD ⟨[], []⟩).summaries ++
                  (if c.summary = [] then [] else [c.summary])⟩
        else m.lookup n :=
      upsertApp_lookup m (displayName c) n
        (fun mc => ⟨mc.message_ids ++ c.messages,
          mc.summaries ++ (if c.summary = [] then [] else [c.summary])⟩)
        ⟨[], []⟩
    by_cases hn : n = displayName c
    · rw [hup2, if_pos hn, hn]
      rcases h : m.lookup (displayName c) with _ | mc
      · dsimp only
        rw [gatherIds_cons_pos c cats _ rfl, gatherSums_cons_pos c cats _ rfl,
          show hasName (displayName c) (c :: cats) = true from by
            simp [hasName, List.any_cons]]
        simp
      · dsimp only
        rw [gatherIds_cons_pos c cats _ rfl, gatherSums_cons_pos c cats _ rfl]
        simp [List.append_assoc]
    · have hne : ¬displayName c = n := fun hc => hn hc.symm
      rw [hup2, if_neg hn, gatherIds_cons_neg c cats n hne,
        gatherSums_cons_neg c cats n hne,
        show hasName n (c :: cats) = hasName n cats from by
          simp [hasName, List.any_cons, hne]]

lemma mergedMap_lookup (l : List (List Char × MergedCat)) (n : List Char) :
    (l.map (fun p =>
        (p.1, (⟨dedupFirst p.2.message_ids, p.2.summaries⟩ : MergedCat)))).lookup n =
      (l.lookup n).map
        (fun mc => (⟨dedupFirst mc.message_ids, mc.summaries⟩ : MergedCat)) := by
  induction l with
  | nil => rfl
  | cons p l ih =>
    rcases p with ⟨k, v⟩
    rcases hkn : (n == k) with _ | _
    · simp [List.lookup, hkn, ih]
    · simp [List.lookup, hkn]

lemma mergeCategories_keys (cats : List Category) :
    (mergeCategories cats).map Prod.fst = dedupFirst (cats.map displayName) := by
  have h1 : (mergeCategories cats).map Prod.fst =
      (cats.foldl addCat []).map Prod.fst := by
    unfold mergeCategories
    rw [List.map_map]
    apply List.map_congr_left
    intro p _
    rfl
  rw [h1, foldl_addCat_keys cats []]
  rfl

lemma mergeCategories_lookup (cats : List Category) (n : List Char)
    (h : hasName n cats = true) :
    (mergeCategories cats).lookup n =
      some ⟨dedupFirst (gatherIds n cats), gatherSums n cats⟩ := by
  unfold mergeCategories
  rw [mergedMap_lookup, foldl_addCat_lookup cats [] n]
  simp [List.lookup, h]

/-- C5 — Merger category combination in `_merge_categories` (with the
joined summary of `_format_category_output` on the batch-merge path):
group names keep first-seen order under case-sensitive exact matching
(the key list is the first-occurrence dedup of the category names, and
names differing only in case stay distinct); within a group the
referenced message ids are the concatenation, in the order seen across
batches, of the member categories' id lists, deduplicated keeping first
occurrence (so `A [1,2]` plus `A [2,3]` merges to `[1,2,3]`), and the
nonempty summaries are collected in order; rendering joins them with
`" | "` when more than one and outputs the single one verbatim. -/
theorem c5_merger_category_combination (cats : List Category) (n : List Char) :
    ((mergeCategories cats).map Prod.fst = dedupFirst (cats.map displayName)) ∧
    (hasName n cats = true →
      (mergeCategories cats).lookup n =
        some ⟨dedupFirst (gatherIds n cats), gatherSums n cats⟩) ∧
    (mergeCategories
        [⟨"A".data, "s1".data, [1, 2]⟩, ⟨"A".data, "s2".data, [2, 3]⟩] =
      [("A".data, ⟨[1, 2, 3], ["s1".data, "s2".data]⟩)]) ∧
    ((mergeCategories
        [⟨"A".data, "s1".data, [1]⟩, ⟨"a".data, "s2".data, [2]⟩]).map Prod.fst =
      ["A".data, "a".data]) ∧
    (∀ s : List Char, combinedSummary true [s] = s) ∧
    (∀ s1 s2 : List Char,
      combinedSummary true [s1, s2] = s1 ++ " | ".data ++ s2) := by
  refine ⟨mergeCategories_keys cats, mergeCategories_lookup cats n, rfl, rfl,
    fun s => rfl, fun s1 s2 => ?_⟩
  simp [combinedSummary, List.intercalate, List.intersperse, List.append_assoc]

/-- Witness for C5 at the two-batch input `A [1,2]` + `A [2,3]`: the
group `A` exists and merges to ids `[1,2,3]` with both summaries. -/
theorem c5_merger_category_combination_witness :
    hasName "A".data
        [⟨"A".data, "s1".data, [1, 2]⟩, ⟨"A".data, "s2".data, [2, 3]⟩] = true ∧
    (mergeCategories
        [⟨"A".data, "s1".data, [1, 2]⟩, ⟨"A".data, "s2".data, [2, 3]⟩]).lookup
        "A".data =
      some ⟨dedupFirst (gatherIds "A".data
          [⟨"A".data, "s1".data, [1, 2]⟩, ⟨"A".data, "s2".data, [2, 3]⟩]),
        gatherSums "A".data
          [⟨"A".data, "s1".data, [1, 2]⟩, ⟨"A".data, "s2".data, [2, 3]⟩]⟩ :=
  ⟨rfl, (c5_merger_category_combination
      [⟨"A".data, "s1".data, [1, 2]⟩, ⟨"A".data, "s2".data, [2, 3]⟩]
      "A".data).2.1 rfl⟩

lemma overalls_mem_enumFrom :
    ∀ (l : List (Except AIErr StructuredResult)) (k i : Nat)
      (r : StructuredResult),
      l[i]? = some (Except.ok r) → r.overall.isEmpty = false →
      labeledOverall (k + i + 1) r.overall ∈ (List.enumFrom k l).flatMap okOverall := by
  intro l
  induction l with
  | nil =>
    intro k i r hget hov
    simp at hget
  | cons o l ih =>
    intro k i r hget hov
    cases i with
    | zero =>
      rw [List.getElem?_cons_zero] at hget
      cases hget
      simp only [List.enumFrom, List.flatMap_cons, okOverall, hov]
      simp
    | succ i =>
      rw [List.getElem?_cons_succ] at hget
      have hmem := ih (k + 1) i r hget hov
      rw [show k + 1 + i + 1 = k + (i + 1) + 1 by omega] at hmem
      simp only [List.enumFrom, List.flatMap_cons]
      exact List.mem_append_right _ hmem

/-- C6 — Merged overall field: on the batching path the collected
overalls are exactly the successful batches' nonempty overall texts,
each prefixed with its batch label, in batch order (the `i`-th
successful batch with a truthy overall contributes `批次 i+1: text`);
with zero successful batches the collected overalls are empty; and on
the single-call path the rendered overall line is the result's overall
verbatim with no batch label. -/
theorem c6_merger_overall_field
    (outcomes : List (Except AIErr StructuredResult))
    (link : Option (List Char)) (mmap : List (Int × MsgInfo))
    (d : StructuredResult) :
    ((collectBatches outcomes).overalls = outcomes.enum.flatMap okOverall) ∧
    (∀ (i : Nat) (r : StructuredResult), outcomes[i]? = some (Except.ok r) →
      r.overall.isEmpty = false →
      labeledOverall (i + 1) r.overall ∈ (collectBatches outcomes).overalls) ∧
    ((∀ o ∈ outcomes, isErr o = true) → (collectBatches outcomes).overalls = []) ∧
    (d.overall.isEmpty = false →
      singleThreadLines (Except.ok d) link mmap =
        ("  - 总览：".data ++ d.overall) ::
          (if d.categories.isEmpty then ["  - 未返回分类结果。".data]
           else formatCategoryOutput
             (mergeCategories (sortCategoriesByPriority d.categories))
             false link mmap)) := by
  refine ⟨by rw [collectBatches_eq], ?_, ?_, ?_⟩
  · intro i r hget hov
    rw [collectBatches_eq]
    have := overalls_mem_enumFrom outcomes 0 i r hget hov
    rw [show (0 : Nat) + i + 1 = i + 1 by omega] at this
    exact this
  · intro hall
    rw [collectBatches_eq]
    unfold List.enum
    exact enumFrom_all_err_overall outcomes hall 0
  · intro hov
    simp [singleThreadLines, hov]

/-- Witness for C6: with two successful batches whose overalls are `o1`
and `o2`, the second contributes the labeled `批次 2: o2`. -/
theorem c6_merger_overall_field_witness :
    (([Except.ok ⟨"o1".data, []⟩, Except.ok ⟨"o2".data, []⟩] :
        List (Except AIErr StructuredResult))[1]? =
      some (Except.ok (⟨"o2".data, []⟩ : StructuredResult))) ∧
    ((⟨"o2".data, []⟩ : StructuredResult).overall.isEmpty = false) ∧
    labeledOverall 2 "o2".data ∈
      (collectBatches [Except.ok ⟨"o1".data, []⟩,
        Except.ok ⟨"o2".data, []⟩]).overalls :=
  ⟨rfl, rfl,
    (c6_merger_overall_field
      [Except.ok ⟨"o1".data, []⟩, Except.ok ⟨"o2".data, []⟩]
      none [] ⟨[], []⟩).2.1 1 ⟨"o2".data, []⟩ rfl rfl⟩

/-- C9 — Silent drop of orphaned replies in `_convert_rows_to_messages`:
a row whose (truthy) reply target is absent from the store converts to
nothing and is omitted entirely from the payload (the surrounding rows
are unaffected, with no top-level reassignment of the dropped row); a
row with no (truthy) reply target is always included, unchanged and with
no replied-message info; a row whose reply target is present is always
included, carrying the target's info; and every included message keeps
its own id and its original `reply_to` field. -/
theorem c9_silent_drop_of_orphaned_replies (store : Int → Option Row)
    (r : Row) (pre post : List Row) (t : Int) :
    (r.reply_to = some t → t ≠ 0 → store t = none →
      convertRowToMessage store r = none ∧
      convertRowsToMessages store (pre ++ r :: post) =
        convertRowsToMessages store pre ++ convertRowsToMessages store post) ∧
    (pyTruthyInt r.reply_to = false →
      convertRowToMessage store r = some
        ⟨r.message_id, formatUser r.user_id r.username, r.date,
         r.text.getD [], r.media_type, r.reply_to, none⟩) ∧
    (∀ rm : Row, r.reply_to = some t → t ≠ 0 → store t = some rm →
      convertRowToMessage store r = some
        ⟨r.message_id, formatUser r.user_id r.username, r.date,
         r.text.getD [], r.media_type, r.reply_to,
         some ⟨rm.message_id, formatUser rm.user_id rm.username,
           rm.text.getD [], rm.media_type, rm.date⟩⟩) ∧
    (∀ m : ConvMsg, convertRowToMessage store r = some m →
      m.id = r.message_id ∧ m.reply_to = r.reply_to) := by
  refine ⟨?_, ?_, ?_, ?_⟩
  · intro hrt ht hs
    have h1 : convertRowToMessage store r = none := by
      simp only [convertRowToMessage]
      rw [if_pos (by simp [pyTruthyInt, hrt, ht]), hrt]
      simp [hs]
    refine ⟨h1, ?_⟩
    unfold convertRowsToMessages
    rw [List.filterMap_append]
    simp [List.filterMap_cons, h1]
  · intro hp
    simp only [convertRowToMessage]
    rw [if_neg (by rw [hp]; exact Bool.false_ne_true)]
  · intro rm hrt ht hs
    simp only [convertRowToMessage]
    rw [if_pos (by simp [pyTruthyInt, hrt, ht]), hrt]
    simp [hs]
  · intro m hm
    simp only [convertRowToMessage] at hm
    by_cases hp : pyTruthyInt r.reply_to
    · rw [if_pos hp] at hm
      rcases hs : store (r.reply_to.getD 0) with _ | rm
      · rw [hs] at hm
        exact absurd hm (by simp)
      · rw [hs] at hm
        cases hm
        exact ⟨rfl, rfl⟩
    · rw [if_neg hp] at hm
      cases hm
      exact ⟨rfl, rfl⟩

/-- Witness for C9: a reply to the absent message `7` is dropped from the
payload while its neighbors survive. -/
theorem c9_silent_drop_of_orphaned_replies_witness :
    ((⟨2, none, none, some "hi".data, none, some 7, "d".data, 7⟩ :
        Row).reply_to = some 7) ∧
    ((7 : Int) ≠ 0) ∧
    ((fun _ => (none : Option Row)) 7 = none) ∧
    convertRowToMessage (fun _ => none)
        (⟨2, none, none, some "hi".data, none, some 7, "d".data, 7⟩ : Row) =
      none ∧
    convertRowsToMessages (fun _ => none)
        ([⟨1, none, none, some "a".data, none, none, "d".data, -1⟩] ++
          (⟨2, none, none, some "hi".data, none, some 7, "d".data, 7⟩ : Row) ::
          [⟨3, none, none, some "b".data, none, none, "d".data, -1⟩]) =
      convertRowsToMessages (fun _ => none)
          [⟨1, none, none, some "a".data, none, none, "d".data, -1⟩] ++
        convertRowsToMessages (fun _ => none)
          [⟨3, none, none, some "b".data, none, none, "d".data, -1⟩] := by
  refine ⟨rfl, by decide, rfl, ?_⟩
  exact (c9_silent_drop_of_orphaned_replies (fun _ => none)
    ⟨2, none, none, some "hi".data, none, some 7, "d".data, 7⟩
    [⟨1, none, none, some "a".data, none, none, "d".data, -1⟩]
    [⟨3, none, none, some "b".data, none, none, "d".data, -1⟩] 7).1
    rfl (by decide) rfl

lemma flatMap_congr_mem {α β : Type} (l : List α) (f g : α → List β)
    (h : ∀ a ∈ l, f a = g a) : l.flatMap f = l.flatMap g := by
  induction l with
  | nil => rfl
  | cons a l ih =>
    rw [List.flatMap_cons, List.flatMap_cons, h a (List.mem_cons_self a l),
      ih (fun b hb => h b (List.mem_cons_of_mem a hb))]

lemma threadSection_congr (cfg : Cfg)
    (call call' : Int → Nat → Except AIErr StructuredResult)
    (link : Option (List Char)) (mmap : List (Int × MsgInfo))
    (g : Int × List Row) (h : call g.1 = call' g.1) :
    threadSection cfg call link mmap g = threadSection cfg call' link mmap g := by
  simp only [threadSection, processThreadBatch, h]

/-- C10 — Implicit thread-size threshold of `build_ai_summary_section`:
the threshold is the per-chat `min_thread_messages` when set, else the
supplied default (the legacy path of `main.py` hard-codes `10`, and the
config parser maps values below 1 back to unset); every thread below the
threshold is excluded from the qualifying set and gets no section; when
no thread qualifies the section body is only the no-qualifying-threads
note; otherwise the section is exactly the count line plus the
per-qualifying-thread sections; and the output is unchanged under any
reassignment of the summarization oracle outside the qualifying threads
(no call is made for an excluded thread). -/
theorem c10_thread_size_threshold (cfg : Cfg) (minThread : Option Nat)
    (dflt : Nat) (rows : List Row)
    (call call' : Int → Nat → Except AIErr StructuredResult)
    (link : Option (List Char)) (mmap : List (Int × MsgInfo))
    (henable : cfg.enable_ai_summary = true)
    (hbase : cfg.ai_api_base.isEmpty = false)
    (hkey : cfg.ai_api_key.isEmpty = false) :
    (∀ t : Nat, thresholdUsed (some t) dflt = t) ∧
    thresholdUsed none dflt = dflt ∧
    (∀ v : Int, v < 1 → chatMinThreadMessages (some v) = none) ∧
    legacyValidThreads rows = validThreads 10 rows ∧
    (∀ g ∈ threadGroups rows, g.2.length < thresholdUsed minThread dflt →
      g ∉ validThreads (thresholdUsed minThread dflt) rows) ∧
    (validThreads (thresholdUsed minThread dflt) rows = [] →
      buildAiSummarySection cfg true minThread dflt rows call link mmap =
        [[], "## AI 线程摘要".data, noThreadsLine (thresholdUsed minThread dflt)]) ∧
    (validThreads (thresholdUsed minThread dflt) rows ≠ [] →
      buildAiSummarySection cfg true minThread dflt rows call link mmap =
        [[], "## AI 线程摘要".data,
         threadCountLine (validThreads (thresholdUsed minThread dflt) rows).length
           (thresholdUsed minThread dflt), []] ++
          (sortThreadsDesc
            (validThreads (thresholdUsed minThread dflt) rows)).flatMap
            (threadSection cfg call link mmap)) ∧
    ((∀ g ∈ validThreads (thresholdUsed minThread dflt) rows, ∀ i : Nat,
        call g.1 i = call' g.1 i) →
      buildAiSummarySection cfg true minThread dflt rows call link mmap =
        buildAiSummarySection cfg true minThread dflt rows call' link mmap) := by
  have hvalid : ∀ hne : validThreads (thresholdUsed minThread dflt) rows ≠ [],
      ∀ c : Int → Nat → Except AIErr StructuredResult,
      buildAiSummarySection cfg true minThread dflt rows c link mmap =
        [[], "## AI 线程摘要".data,
         threadCountLine (validThreads (thresholdUsed minThread dflt) rows).length
           (thresholdUsed minThread dflt), []] ++
          (sortThreadsDesc
            (validThreads (thresholdUsed minThread dflt) rows)).flatMap
            (threadSection cfg c link mmap) := by
    intro hne c
    have hq : (validThreads (thresholdUsed minThread dflt) rows).isEmpty = false := by
      rcases hv : validThreads (thresholdUsed minThread dflt) rows with _ | ⟨a, l⟩
      · exact absurd hv hne
      · rfl
    simp [buildAiSummarySection, henable, hbase, hkey, hq]
  refine ⟨fun t => rfl, rfl, ?_, rfl, ?_, ?_, fun hne => hvalid hne call, ?_⟩
  · intro v hv
    simp [chatMinThreadMessages, hv]
  · intro g hg hlt hmem
    rcases List.mem_filter.mp hmem with ⟨_, hd⟩
    simp at hd
    omega
  · intro hempty
    simp [buildAiSummarySection, henable, hbase, hkey, hempty]
  · intro hagree
    by_cases hempty : validThreads (thresholdUsed minThread dflt) rows = []
    · simp [buildAiSummarySection, henable, hbase, hkey, hempty]
    · rw [hvalid hempty call, hvalid hempty call']
      congr 1
      apply flatMap_congr_mem
      intro g hg
      apply threadSection_congr
      apply funext
      intro i
      apply hagree
      have hperm : g ∈ validThreads (thresholdUsed minThread dflt) rows := by
        have := hg
        unfold sortThreadsDesc at this
        exact (List.mem_mergeSort).mp this
      exact hperm

/-- Witness for C10: two messages in thread `5` against threshold `3`
(the default, with no per-chat override): no thread qualifies and the
section is only the note line. -/
theorem c10_thread_size_threshold_witness :
    ((⟨true, "b".data, "k".data, 200⟩ : Cfg).enable_ai_summary = true ∧
     (⟨true, "b".data, "k".data, 200⟩ : Cfg).ai_api_base.isEmpty = false ∧
     (⟨true, "b".data, "k".data, 200⟩ : Cfg).ai_api_key.isEmpty = false ∧
     validThreads (thresholdUsed none 3)
       [⟨1, none, none, some "a".data, none, none, "d".data, 5⟩,
        ⟨2, none, none, some "b".data, none, none, "d".data, 5⟩] = []) ∧
    buildAiSummarySection ⟨true, "b".data, "k".data, 200⟩ true none 3
        [⟨1, none, none, some "a".data, none, none, "d".data, 5⟩,
         ⟨2, none, none, some "b".data, none, none, "d".data, 5⟩]
        (fun _ _ => Except.error ⟨[]⟩) none [] =
      [[], "## AI 线程摘要".data, noThreadsLine (thresholdUsed none 3)] :=
  ⟨⟨rfl, rfl, rfl, rfl⟩,
    (c10_thread_size_threshold ⟨true, "b".data, "k".data, 200⟩ none 3
      [⟨1, none, none, some "a".data, none, none, "d".data, 5⟩,
       ⟨2, none, none, some "b".data, none, none, "d".data, 5⟩]
      (fun _ _ => Except.error ⟨[]⟩) (fun _ _ => Except.error ⟨[]⟩)
      none [] rfl rfl rfl).2.2.2.2.2.1 rfl⟩

lemma dedupRefs_fst :
    ∀ (refs : List (Int × List Char)) (s : List Int),
      (dedupRefsAux s refs).map Prod.fst = dedupFirstAux s (refs.map Prod.fst) := by
  intro refs
  induction refs with
  | nil => intro s; rfl
  | cons p refs ih =>
    intro s
    rcases p with ⟨mid, d⟩
    simp only [dedupRefsAux, dedupFirstAux, List.map_cons]
    by_cases hm : mid ∈ s
    · rw [if_pos hm, if_pos hm, ih]
    · rw [if_neg hm, if_neg hm, List.map_cons, ih]

/-- C8 counterexample — the preview of a known message whose stripped
body is `a\nb` keeps the interior newline verbatim: `_format_category_output`
never flattens newlines to spaces in the reference preview. -/
theorem c8_rendered_references_counterexample :
    refDisplay [((1 : Int), ⟨"a\nb".data, none, none⟩)] 1 = "a\nb".data ∧
    '\n' ∈ refDisplay [((1 : Int), ⟨"a\nb".data, none, none⟩)] 1 ∧
    refDisplay [((1 : Int), ⟨"a\nb".data, none, none⟩)] 1 ≠ "a b".data :=
  ⟨rfl, by decide, by decide⟩

/-- C8 (amended) — Rendered original-references list: the listed ids are
the first-occurrence order-preserving dedup of the collected ids; a known
reference's preview is the `]`/`)`-escaped 50-character truncation of the
stripped body (ellipsis exactly when longer than 50; interior newlines
are kept, not flattened); the reference renders as a Markdown link
exactly when the chat link template is truthy; and the no-summary and
no-matched-reference cases render to plain lines. -/
theorem c8_rendered_references_amended
    (refs : List (Int × List Char)) (t : List Char) (link : Option (List Char))
    (idx : Nat) (mid : Int) (disp : List Char) (n : List Char) (mc : MergedCat)
    (isBatch : Bool) (mmap : List (Int × MsgInfo)) (info : MsgInfo) :
    ((dedupRefsAux [] refs).map Prod.fst = dedupFirst (refs.map Prod.fst)) ∧
    (50 < t.length → truncate50 t = t.take 50 ++ "...".data) ∧
    (t.length ≤ 50 → truncate50 t = t) ∧
    (escapeMd "a]b)c".data = "a\\]b\\)c".data) ∧
    (∀ mid2 : Int, refDisplay [] mid2 = []) ∧
    (mmap.isEmpty = false → mmap.lookup mid = some info →
      (pyStrip info.text).isEmpty = false →
      refDisplay mmap mid = escapeMd (truncate50 (pyStrip info.text))) ∧
    (pyTruthyStr link = true → disp ≠ [] →
      refLine link idx mid disp =
        "      ".data ++ natDigits idx ++ ". [".data ++ intChars mid ++
          "：".data ++ disp ++ "](".data ++ link.getD [] ++ "/".data ++
          intChars mid ++ ")".data) ∧
    (pyTruthyStr link = false → disp ≠ [] →
      refLine link idx mid disp =
        "      ".data ++ natDigits idx ++ ". ".data ++ intChars mid ++
          "：".data ++ disp) ∧
    (mc.summaries = [] → categoryBlock isBatch n mc =
      ["    - **".data ++ n ++ "**".data]) := by
  refine ⟨dedupRefs_fst refs [], ?_, ?_, rfl, fun mid2 => rfl, ?_, ?_, ?_, ?_⟩
  · intro h
    rw [truncate50, if_pos h]
  · intro h
    rw [truncate50, if_neg (by omega), List.append_nil,
      List.take_of_length_le h]
  · intro hemp hlk hstrip
    simp [refDisplay, hemp, hlk, hstrip]
  · intro hl hd
    have hde : disp.isEmpty = false := by
      rcases disp with _ | ⟨c, cs⟩
      · exact absurd rfl hd
      · rfl
    simp [refLine, hl, hde]
  · intro hl hd
    have hde : disp.isEmpty = false := by
      rcases disp with _ | ⟨c, cs⟩
      · exact absurd rfl hd
      · rfl
    simp [refLine, hl, hde]
  · intro h
    simp [categoryBlock, h]

/-- Witness for C8 (amended): reference `5` with preview `x` under chat
link `L` renders as the clickable numbered Markdown link. -/
theorem c8_rendered_references_witness :
    pyTruthyStr (some "L".data) = true ∧ ("x".data : List Char) ≠ [] ∧
    refLine (some "L".data) 1 5 "x".data =
      "      ".data ++ natDigits 1 ++ ". [".data ++ intChars 5 ++ "：".data ++
        "x".data ++ "](".data ++ (some "L".data).getD [] ++ "/".data ++
        intChars 5 ++ ")".data :=
  ⟨rfl, by decide,
    (c8_rendered_references_amended [] [] (some "L".data) 1 5 "x".data []
      ⟨[], []⟩ false [] ⟨[], none, none⟩).2.2.2.2.2.2.1 rfl (by decide)⟩
